import Mathlib

/-!
Verification development for the cosmos deployment control plane.

This file gives a shallow embedding, in Lean 4, of the parts of the Go
source that the specification's testable properties talk about:

* the controller's stream registry (internal/controller/grpc, registerStream /
  removeStream / SendDeployment);
* the offline sweeper (internal/controller/jobs markOfflineAgents and
  database MarkAgentsOffline);
* the agent's component lifecycle engine (internal/agent/component/manager.go:
  downloadFile, DeployProgram, extractTarGz, extractZip, StartComponent,
  monitorProcess), including a faithful embedding of Go's lexical
  path.Clean / filepath.Join algorithm used by the archive-escape guard;
* the controller's deployment planner (internal/controller/reconciler
  ProcessDeployment, deployComponent, removeComponent, deployViaAgent, ...)
  over a list-based model of the controller store;
* the stream handlers handleHeartbeat / handleHealthResult together with the
  store's upsert operations.

Machine integers are modelled as Int (timestamps, pids) or Nat; database
tables are lists of rows keyed by their natural key; fallible operations
return Except; calls into external collaborators (the SHA-256 library, HTTP,
the process spawner, the nomad / command-core managers) are parameters of the
model, so every definition is executable.  Side effects that the properties
observe (file writes, stream broadcasts, log appends) are reified as ordered
event traces.
-/

namespace Cosmos

/-! ## Stream registry (controller gRPC server)

The Go server keeps "streams map[string]pb.CosmosController_StreamAgentMessagesServer"
guarded by an RWMutex.  We model the map as a function from hostname to an
optional stream identifier (streams are identified by a Nat). -/

/-- Model of the controller's hostname-to-stream map. -/
def Registry := String → Option Nat

/-- Model of the empty "make(map[string]...)" registry. -/
def emptyRegistry : Registry := fun _ => none

/-- Embedding of registerStream: "s.streams[hostname] = stream" — a plain map
assignment that replaces any prior entry for the hostname. -/
def registerStream (hostname : String) (stream : Nat) (reg : Registry) : Registry :=
  fun h => if h = hostname then some stream else reg h

/-- Embedding of removeStream: "delete(s.streams, hostname)".  Note the Go
function receives only the hostname; it does not check which stream is being
torn down. -/
def removeStream (hostname : String) (reg : Registry) : Registry :=
  fun h => if h = hostname then none else reg h

/-- Embedding of the registry lookup "stream, exists := s.streams[hostname]"
performed by SendDeployment / SendRemoval / SendHealthConfig / SendAck. -/
def getStream (hostname : String) (reg : Registry) : Option Nat :=
  reg hostname

/-! ## Offline sweeper (controller background job) -/

/-- Row of the controller's agents table (internal/controller/database Agent;
timestamps are seconds). -/
structure Agent where
  hostname : String
  agentVersion : String
  lastHeartbeat : Int
  online : Bool
  componentCount : Nat
  deriving Repr, DecidableEq

/-- Embedding of ControllerDB.MarkAgentsOffline: UPDATE agents SET online =
false WHERE last_heartbeat < beforeTime AND online = true. -/
def MarkAgentsOffline (beforeTime : Int) (agents : List Agent) : List Agent :=
  agents.map fun a =>
    if a.lastHeartbeat < beforeTime ∧ a.online = true then { a with online := false } else a

/-- Embedding of the threshold computed by markOfflineAgents:
"time.Now().Add(-2 * time.Minute)", in seconds. -/
def offlineThreshold (now : Int) : Int := now - 120

/-! ## Go lexical path algorithms

The archive extractors guard every entry with

  target := filepath.Join(destDir, header.Name)
  if !strings.HasPrefix(target, filepath.Clean(destDir)+string(os.PathSeparator)) { ... }

so we embed Go's filepath.Clean (the Unix instantiation, Separator is '/') and
filepath.Join.  Clean is the standard lexical algorithm from Go's path
package: iterate over the path, skipping empty and "." elements, applying
".." by backing up the output buffer (or, when not rooted, emitting a leading
".."), and copying real elements separated by single slashes. -/

/-- Element-boundary backtracking loop of Go's Clean for a ".." element:
"out.w--; for out.w > dotdot and out.index(out.w) != '/' { out.w-- }".
The argument w is the candidate new length of the output buffer. -/
def backW (out : List Char) (dotdot : Nat) : Nat → Nat
  | 0 => 0
  | w + 1 =>
    if dotdot < w + 1 ∧ ¬ out.get? (w + 1) = some '/' then backW out dotdot w else w + 1

/-- Effect of one ".." path element on the output buffer and the dotdot
marker, mirroring the three-way switch in Go's Clean. -/
def dotdotStep (rooted : Bool) (out : List Char) (dotdot : Nat) : List Char × Nat :=
  if dotdot < out.length then
    (out.take (backW out dotdot (out.length - 1)), dotdot)
  else if rooted = false then
    let out2 := (if 0 < out.length then out ++ ['/'] else out) ++ ['.', '.']
    (out2, out2.length)
  else
    (out, dotdot)

/-- Go Clean appends a '/' before a real element unless the buffer is at the
start ("rooted and out.w != 1 or not rooted and out.w != 0"). -/
def sepNeeded (rooted : Bool) (outLen : Nat) : Bool :=
  (rooted && outLen != 1) || (!rooted && outLen != 0)

/-- Main loop of Go's Clean.  The Bool argument is true while we are copying
the interior of a real path element (the inner copy loop of Go's default
case); the Nat argument is the dotdot marker. -/
def cleanCore (rooted : Bool) : Bool → List Char → List Char → Nat → List Char
  | _, [], out, _ => out
  | true, c :: rest, out, dotdot =>
    if c = '/' then cleanCore rooted false rest out dotdot
    else cleanCore rooted true rest (out ++ [c]) dotdot
  | false, '/' :: rest, out, dotdot => cleanCore rooted false rest out dotdot
  | false, ['.'], out, _ => out
  | false, '.' :: '/' :: rest, out, dotdot => cleanCore rooted false ('/' :: rest) out dotdot
  | false, '.' :: '.' :: [], out, dotdot => (dotdotStep rooted out dotdot).1
  | false, '.' :: '.' :: '/' :: rest, out, dotdot =>
    let od := dotdotStep rooted out dotdot
    cleanCore rooted false ('/' :: rest) od.1 od.2
  | false, c :: rest, out, dotdot =>
    cleanCore rooted true rest ((if sepNeeded rooted out.length then out ++ ['/'] else out) ++ [c]) dotdot

/-- Embedding of Go's filepath.Clean on Unix. -/
def goClean (path : String) : String :=
  match path.data with
  | [] => "."
  | c :: rest =>
    let out :=
      if c = '/' then cleanCore true false rest ['/'] 1
      else cleanCore false false (c :: rest) [] 0
    if out.isEmpty then "." else ⟨out⟩

/-- Embedding of Go's filepath.Join for two elements: the first non-empty
element starts the join, and the result is Cleaned. -/
def goJoin (a b : String) : String :=
  if a ≠ "" then goClean (a ++ "/" ++ b)
  else if b ≠ "" then goClean b
  else ""

example : goClean "" = "." := by decide
example : goClean "abc" = "abc" := by decide
example : goClean "abc/def" = "abc/def" := by decide
example : goClean "a/b/.." = "a" := by decide
example : goClean "a/.." = "." := by decide
example : goClean "/.." = "/" := by decide
example : goClean "./a" = "a" := by decide
example : goClean "a/." = "a" := by decide
example : goClean "//a" = "/a" := by decide
example : goClean "a//b" = "a/b" := by decide
example : goClean "/../a" = "/a" := by decide
example : goClean "a/../../b" = "../b" := by decide
example : goClean "a/b/../.." = "." := by decide
example : goClean "/a/b/c/../../d" = "/a/d" := by decide
example : goClean ".." = ".." := by decide
example : goClean "../.." = "../.." := by decide
example : goClean "a/" = "a" := by decide
example : goClean "/" = "/" := by decide
example : goClean "." = "." := by decide
example : goClean "..foo/bar" = "..foo/bar" := by decide
example : goClean ".foo" = ".foo" := by decide
example : goJoin "/data/programs/x" "../evil" = "/data/programs/evil" := by decide
example : goJoin "/data/programs/x" "ok/file" = "/data/programs/x/ok/file" := by decide

/-! ## Archive extraction (agent component manager)

extractTarGz iterates over tar headers, and extractZip over zip file records.
Both compute target := filepath.Join(destDir, name), reject the entry when
Clean(destDir) + "/" is not a prefix of target, and otherwise materialize the
entry at target (MkdirAll for a directory, create-and-copy for a regular
file; extractTarGz skips other type flags, extractZip has no other kinds).
For a regular file the Go code first calls os.MkdirAll(filepath.Dir(target)),
which creates only ancestor directories of the recorded target path.  We
reify the paths at which entries are materialized as an event trace. -/

/-- Tar header type flags distinguished by extractTarGz. -/
inductive EntryKind
  | dir
  | reg
  | other
  deriving Repr, DecidableEq

/-- One archive entry: its name as stored in the archive and its kind.
For a zip record, kind dir corresponds to f.FileInfo().IsDir(). -/
structure ArchiveEntry where
  name : String
  kind : EntryKind
  deriving Repr, DecidableEq

/-- Filesystem materialization events produced by the extractors. -/
inductive FsWrite
  | mkdir (path : String)
  | file (path : String)
  deriving Repr, DecidableEq

/-- Path of a filesystem write event. -/
def FsWrite.path : FsWrite → String
  | .mkdir p => p
  | .file p => p

/-- Embedding of Go's strings.HasPrefix(s, pre) as a character-list prefix
test (the prefixes used here end in '/', a single-byte rune, so byte-wise
and rune-wise prefix agree). -/
def strHasPrefix (s pre : String) : Bool :=
  pre.data.isPrefixOf s.data

/-- Embedding of the escape guard shared by extractTarGz and extractZip:
strings.HasPrefix(target, filepath.Clean(destDir) + "/") where
target = filepath.Join(destDir, name). -/
def entryAllowed (destDir name : String) : Bool :=
  strHasPrefix (goJoin destDir name) (goClean destDir ++ "/")

/-- Embedding of the extractTarGz loop.  Returns the overall result and the
ordered list of paths materialized; a guard violation aborts the loop with
"illegal file path" before writing anything for that entry or any later
entry. -/
def extractTarGz (destDir : String) : List ArchiveEntry → Except String Unit × List FsWrite
  | [] => (.ok (), [])
  | e :: rest =>
    let target := goJoin destDir e.name
    if ¬ entryAllowed destDir e.name then
      (.error ("illegal file path: " ++ e.name), [])
    else
      let writes : List FsWrite :=
        match e.kind with
        | .dir => [.mkdir target]
        | .reg => [.file target]
        | .other => []
      let r := extractTarGz destDir rest
      (r.1, writes ++ r.2)

/-- Embedding of the extractZip loop.  Zip records are directories or files;
a directory is MkdirAll-ed and the loop continues, a file is created at
target.  The guard is identical to the tar one. -/
def extractZip (destDir : String) : List ArchiveEntry → Except String Unit × List FsWrite
  | [] => (.ok (), [])
  | e :: rest =>
    let target := goJoin destDir e.name
    if ¬ entryAllowed destDir e.name then
      (.error ("illegal file path: " ++ e.name), [])
    else
      let writes : List FsWrite :=
        match e.kind with
        | .dir => [.mkdir target]
        | _ => [.file target]
      let r := extractZip destDir rest
      (r.1, writes ++ r.2)

/-! ## Program deployment (agent component manager)

DeployProgram downloads the content URL to a temp file while hashing the
bytes, verifies the SHA-256 hex digest against the expected hash, extracts
into dataDir/programs/name, locates the executable, stops any prior version,
persists the component and starts it.  The SHA-256 library, the HTTP GET and
the downstream filesystem and process outcomes are parameters; the events
that the content-integrity property observes are reified as a trace. -/

/-- Row of the agent's components table (internal/agent/database Component).
Env and Args are opaque JSON blobs. -/
structure AgentComponent where
  name : String
  type : String
  hash : String
  contentURL : String
  contentURLEncoding : String
  content : String
  executable : String
  env : String
  args : String
  managed : Bool
  deriving Repr, DecidableEq

/-- Result of the http.Get performed by downloadFile. -/
structure HttpResponse where
  statusCode : Nat
  body : List Nat
  deriving Repr, DecidableEq

/-- Observable steps of DeployProgram, in program order. -/
inductive DeployEvent
  | removeTemp
  | extractArchive (dest : String)
  | stopComponent (name : String)
  | upsertComponent (name : String)
  | startComponent (name : String)
  deriving Repr, DecidableEq

/-- Environment of a DeployProgram run: the hash library, what the HTTP GET
of the content URL yields, and the outcomes of the downstream extraction,
executable search and process start. -/
structure DeployEnv where
  sha256Hex : List Nat → String
  httpResp : Except String HttpResponse
  dataDir : String
  extractResult : Except String Unit
  findExecResult : Except String String
  startResult : Except String Unit

/-- Embedding of Manager.downloadFile: create a temp file, GET the URL,
require status 200, hash the streamed bytes, compare the hex digest with the
expected hash; every failure removes the temp file.  Returns the temp path
on success together with the events so far. -/
def downloadFile (env : DeployEnv) (expectedHash : String) :
    Except String String × List DeployEvent :=
  match env.httpResp with
  | .error e => (.error ("failed to download: " ++ e), [.removeTemp])
  | .ok resp =>
    if resp.statusCode ≠ 200 then
      (.error "download failed with status", [.removeTemp])
    else
      let actualHash := env.sha256Hex resp.body
      if actualHash ≠ expectedHash then
        (.error ("hash mismatch: expected " ++ expectedHash ++ ", got " ++ actualHash),
         [.removeTemp])
      else
        (.ok "cosmos-download-tmp", [])

/-- Same-hash no-op test of DeployProgram: "existing, err := GetComponent;
if err == nil and existing.Hash == component.Hash { return nil }". -/
def sameHashDeployed (existing : Option AgentComponent) (hash : String) : Bool :=
  match existing with
  | some ex => ex.hash == hash
  | none => false

/-- Embedding of Manager.DeployProgram.  The deferred os.Remove of the temp
file runs on every return path after a successful download, so a trailing
removeTemp event is appended there. -/
def DeployProgram (env : DeployEnv) (existing : Option AgentComponent)
    (component : AgentComponent) : Except String Unit × List DeployEvent :=
  if component.contentURL = "" then
    (.error "content_url is required for programs", [])
  else if sameHashDeployed existing component.hash then
    (.ok (), [])
  else
    match downloadFile env component.hash with
    | (.error e, evs) => (.error ("download failed: " ++ e), evs)
    | (.ok _, evs) =>
      let extractDir := goJoin (goJoin env.dataDir "programs") component.name
      match env.extractResult with
      | .error e =>
        (.error ("extraction failed: " ++ e),
         evs ++ [.extractArchive extractDir, .removeTemp])
      | .ok () =>
        match env.findExecResult with
        | .error e =>
          (.error ("finding executable failed: " ++ e),
           evs ++ [.extractArchive extractDir, .removeTemp])
        | .ok _ =>
          let stopEvs : List DeployEvent :=
            match existing with
            | some _ => [.stopComponent component.name]
            | none => []
          match env.startResult with
          | .error e =>
            (.error ("failed to start component: " ++ e),
             evs ++ [.extractArchive extractDir] ++ stopEvs ++
               [.upsertComponent component.name, .startComponent component.name, .removeTemp])
          | .ok () =>
            (.ok (),
             evs ++ [.extractArchive extractDir] ++ stopEvs ++
               [.upsertComponent component.name, .startComponent component.name, .removeTemp])

/-! ## Controller store

List-based model of the controller's tables.  Rows carry the fields the
properties mention; uuids are Nats, timestamps Ints (seconds), nullable
columns are Options.  Upserts follow the Go repository: save-by-primary-key
for components and nodes, find-then-create-or-save for component deployments
and agents. -/

/-- Row of the controller's components table. -/
structure DBComponent where
  name : String
  type : String
  handler : String
  hash : String
  tags : List String
  content : String
  contentURL : String
  contentURLEncoding : String
  nomadJob : String
  healthCheck : Option String
  env : Option (List (String × String))
  args : List String
  managed : Bool
  deploymentID : Option Nat
  deriving Repr, DecidableEq

/-- Row of the controller's component_deployments table. -/
structure CompDeployment where
  id : Nat
  componentName : String
  nodeHostname : String
  deploymentID : Option Nat
  status : String
  message : String
  pid : Option Int
  lastStartedAt : Option Int
  lastHealthCheck : Option Int
  healthStatus : String
  deployedAt : Option Int
  lastUpdated : Option Int
  createdAt : Int
  deriving Repr, DecidableEq

/-- Row of the controller's nodes table. -/
structure Node where
  hostname : String
  ip : String
  tags : List String
  online : Bool
  hasAgent : Bool
  lastSeen : Option Int
  syncedAt : Int
  deriving Repr, DecidableEq

/-- Embedding of ControllerDB.UpsertComponent: gorm Save on the name primary
key — replace the row with that name, or insert. -/
def upsertComponent (c : DBComponent) (l : List DBComponent) : List DBComponent :=
  if l.any (fun x => x.name == c.name) then
    l.map (fun x => if x.name == c.name then c else x)
  else
    l ++ [c]

/-- Embedding of ControllerDB.DeleteComponent. -/
def deleteComponent (name : String) (l : List DBComponent) : List DBComponent :=
  l.filter (fun x => ¬ x.name == name)

/-- Lookup of a component row by name (gorm First on the primary key; the
Go planner equivalently reads its currentMap built from ListComponents,
where a later row with the same name overwrites an earlier one, hence
getLast?). -/
def curLookup (l : List DBComponent) (n : String) : Option DBComponent :=
  (l.filter (fun x => x.name == n)).getLast?

/-- Embedding of ControllerDB.UpsertComponentDeployment: find the first row
with the same (component_name, node_hostname); create when absent, otherwise
Save the new row, keeping the existing row's ID and CreatedAt. -/
def upsertComponentDeployment (d : CompDeployment) (l : List CompDeployment) :
    List CompDeployment :=
  match l.find? (fun x => x.componentName == d.componentName && x.nodeHostname == d.nodeHostname) with
  | none => l ++ [d]
  | some existing =>
    l.map (fun x =>
      if x.componentName == d.componentName && x.nodeHostname == d.nodeHostname then
        { d with id := existing.id, createdAt := existing.createdAt }
      else x)

/-- Embedding of ControllerDB.DeleteComponentDeployments (by component name
and node hostname). -/
def deleteCompDeployments (name host : String) (l : List CompDeployment) :
    List CompDeployment :=
  l.filter (fun x => ¬ (x.componentName == name && x.nodeHostname == host))

/-- Lookup used by the handlers: first row with the given natural key. -/
def findDeployment (name host : String) (l : List CompDeployment) : Option CompDeployment :=
  l.find? (fun x => x.componentName == name && x.nodeHostname == host)

/-- Embedding of ControllerDB.UpsertNode: find by hostname, Create when
absent, otherwise Save the new row — a full replacement of every column. -/
def upsertNode (n : Node) (l : List Node) : List Node :=
  if l.any (fun x => x.hostname == n.hostname) then
    l.map (fun x => if x.hostname == n.hostname then n else x)
  else
    l ++ [n]

/-- Lookup of a node row by hostname. -/
def findNode (hostname : String) (l : List Node) : Option Node :=
  l.find? (fun x => x.hostname == hostname)

/-- Embedding of ControllerDB.UpsertAgent: find by hostname, Create when
absent, otherwise Save (CreatedAt aside, a full replacement). -/
def upsertAgent (a : Agent) (l : List Agent) : List Agent :=
  if l.any (fun x => x.hostname == a.hostname) then
    l.map (fun x => if x.hostname == a.hostname then a else x)
  else
    l ++ [a]

/-- Postgres tag-overlap test of ControllerDB.GetNodesByTags ("tags && ?"). -/
def tagsOverlap (a b : List String) : Bool :=
  a.any (fun t => b.contains t)

/-- Embedding of ControllerDB.GetNodesByTags. -/
def getNodesByTags (tags : List String) (l : List Node) : List Node :=
  l.filter (fun n => tagsOverlap tags n.tags)

/-- Embedding of ControllerDB.ListNodes with onlineOnly = true. -/
def listOnlineNodes (l : List Node) : List Node :=
  l.filter (fun n => n.online)

/-! ## Stream message handlers (controller gRPC server) -/

/-- Protobuf ComponentStatus message from an agent. -/
structure ComponentStatusMsg where
  name : String
  status : String
  message : String
  pid : Int
  restartCount : Int
  lastStartedAt : Int
  deriving Repr, DecidableEq

/-- Protobuf AgentHeartbeat message. -/
structure HeartbeatMsg where
  agentVersion : String
  componentStatuses : List ComponentStatusMsg
  deriving Repr, DecidableEq

/-- Protobuf HealthCheckResult message. -/
structure HealthResultMsg where
  componentName : String
  checkType : String
  result : String
  message : String
  timestamp : Int
  deriving Repr, DecidableEq

/-- Embedding of Server.handleComponentStatus: build a ComponentDeployment
row from the message (zero values elsewhere) and upsert it by natural key. -/
def handleComponentStatus (hostname : String) (st : ComponentStatusMsg) (now : Int)
    (deps : List CompDeployment) : List CompDeployment :=
  let d : CompDeployment :=
    { id := 0
      componentName := st.name
      nodeHostname := hostname
      deploymentID := none
      status := st.status
      message := st.message
      pid := if st.pid > 0 then some st.pid else none
      lastStartedAt := if st.lastStartedAt > 0 then some st.lastStartedAt else none
      lastHealthCheck := none
      healthStatus := ""
      deployedAt := none
      lastUpdated := some now
      createdAt := 0 }
  upsertComponentDeployment d deps

/-- Controller-side state touched by a heartbeat. -/
structure HeartbeatState where
  agents : List Agent
  nodes : List Node
  compDeployments : List CompDeployment
  deriving Repr, DecidableEq

/-- Embedding of Server.handleHeartbeat: upsert the Agent shadow row, upsert
a Node row with tags ["all"], online and hasAgent true, then process each
bundled component status. -/
def handleHeartbeat (hostname : String) (hb : HeartbeatMsg) (now : Int)
    (s : HeartbeatState) : HeartbeatState :=
  let agent : Agent :=
    { hostname := hostname
      agentVersion := hb.agentVersion
      lastHeartbeat := now
      online := true
      componentCount := hb.componentStatuses.length }
  let node : Node :=
    { hostname := hostname
      ip := ""
      tags := ["all"]
      online := true
      hasAgent := true
      lastSeen := some now
      syncedAt := 0 }
  { agents := upsertAgent agent s.agents
    nodes := upsertNode node s.nodes
    compDeployments :=
      hb.componentStatuses.foldl
        (fun acc st => handleComponentStatus hostname st now acc) s.compDeployments }

/-- Embedding of Server.handleHealthResult: derive healthy/unhealthy from the
result string, build a ComponentDeployment row carrying only the health
fields (every other column keeps its Go zero value), and upsert it. -/
def handleHealthResult (hostname : String) (result : HealthResultMsg) (now : Int)
    (deps : List CompDeployment) : List CompDeployment :=
  let healthStatus :=
    if result.result != "success" && result.result != "healthy" then "unhealthy" else "healthy"
  let d : CompDeployment :=
    { id := 0
      componentName := result.componentName
      nodeHostname := hostname
      deploymentID := none
      status := ""
      message := if result.message != "" then result.message else ""
      pid := none
      lastStartedAt := none
      lastHealthCheck := some now
      healthStatus := healthStatus
      deployedAt := none
      lastUpdated := none
      createdAt := 0 }
  upsertComponentDeployment d deps

/-! ## Process start and supervision (agent component manager)

StartComponent loads the component and its status, no-ops when already
running with a live PID, and otherwise spawns the process; the spawn outcome
and the process-liveness probe are parameters.  The env/args JSON decoding
and the log-file open are elided: like a spawn failure, their error paths
return before any status row is written. -/

/-- Row of the agent's component_statuses table. -/
structure AgentCompStatus where
  componentName : String
  status : String
  message : String
  pid : Int
  lastStartedAt : Option Int
  lastCheckedAt : Int
  restartCount : Int
  deriving Repr, DecidableEq

/-- Embedding of AgentDB.GetComponentStatus: a missing row synthesizes
status unknown with lastCheckedAt now. -/
def getComponentStatus (name : String) (l : List AgentCompStatus) (now : Int) :
    AgentCompStatus :=
  match l.find? (fun s => s.componentName == name) with
  | some s => s
  | none =>
    { componentName := name, status := "unknown", message := "", pid := 0
      lastStartedAt := none, lastCheckedAt := now, restartCount := 0 }

/-- Embedding of AgentDB.UpsertComponentStatus (gorm Save on the component
name primary key). -/
def upsertComponentStatus (s : AgentCompStatus) (l : List AgentCompStatus) :
    List AgentCompStatus :=
  if l.any (fun x => x.componentName == s.componentName) then
    l.map (fun x => if x.componentName == s.componentName then s else x)
  else
    l ++ [s]

/-- Environment of a StartComponent run: the signal-0 liveness probe and the
outcome of cmd.Start (the new PID, or the exec error). -/
structure StartEnv where
  isProcessRunning : Int → Bool
  spawnResult : Except String Int
  now : Int

/-- Embedding of Manager.StartComponent restricted to the status table: on a
spawn failure the function returns the error without writing any status row;
on success it saves status running with the new PID, lastStartedAt and the
success message. -/
def StartComponent (env : StartEnv) (component : Option AgentComponent)
    (statuses : List AgentCompStatus) : Except String Unit × List AgentCompStatus :=
  match component with
  | none => (.error "component not found", statuses)
  | some comp =>
    let status := getComponentStatus comp.name statuses env.now
    if status.status == "running" && env.isProcessRunning status.pid then
      (.ok (), statuses)
    else
      match env.spawnResult with
      | .error e => (.error ("failed to start process: " ++ e), statuses)
      | .ok pid =>
        let status' :=
          { status with
              status := "running"
              pid := pid
              lastStartedAt := some env.now
              lastCheckedAt := env.now
              message := "Process started successfully" }
        (.ok (), upsertComponentStatus status' statuses)

/-- Embedding of Manager.monitorProcess after cmd.Wait returns: the status
becomes stopped, with the exit cause as the message. -/
def monitorProcess (name : String) (exitErr : Option String) (now : Int)
    (statuses : List AgentCompStatus) : List AgentCompStatus :=
  let status := getComponentStatus name statuses now
  let status' :=
    { status with
        status := "stopped"
        lastCheckedAt := now
        message :=
          match exitErr with
          | some e => "Process exited with error: " ++ e
          | none => "Process exited normally" }
  upsertComponentStatus status' statuses

/-! ## Deployment planner (controller reconciler)

ProcessDeployment diffs the submitted configuration against the stored
components, then executes removals, updates and additions in that order,
logging per-component failures without aborting the loop.  Go map iteration
enumerates each key once in an unspecified order; the model enumerates keys
in a fixed order (keeping, for duplicate names, the last binding, as a Go
map insert does).  External collaborators — the registered streams, the
command-core dispatcher and the nomad manager — are parameters. -/

/-- Field of types.ComponentConfig used by the planner. -/
structure ComponentConfig where
  name : String
  type : String
  handler : String
  hash : String
  tags : List String
  content : String
  contentURL : String
  contentURLEncoding : String
  nomadJob : String
  healthCheck : Option String
  env : Option (List (String × String))
  args : List String
  managed : Bool
  deriving Repr, DecidableEq

/-- Keys of a Go map built by inserting the given keys in order: each key
once, keeping the position of its last insertion. -/
def dedupKeys : List String → List String
  | [] => []
  | k :: rest => if k ∈ rest then dedupKeys rest else k :: dedupKeys rest

/-- Value bound to a name in the map built from the request components
(later bindings win). -/
def newLookup (desired : List ComponentConfig) (n : String) : Option ComponentConfig :=
  (desired.filter (fun c => c.name == n)).getLast?

/-- The three action classes computed by ProcessDeployment. -/
structure Plan where
  toAdd : List ComponentConfig
  toUpdate : List ComponentConfig
  toRemove : List DBComponent
  deriving Repr, DecidableEq

/-- Embedding of the diff phase of ProcessDeployment (lines building
currentMap, newMap, toAdd, toUpdate, toRemove). -/
def computePlan (current : List DBComponent) (desired : List ComponentConfig) : Plan :=
  let nk := dedupKeys (desired.map (fun c => c.name))
  let ck := dedupKeys (current.map (fun c => c.name))
  { toAdd := nk.filterMap fun n =>
      match curLookup current n with
      | some _ => none
      | none => newLookup desired n
    toUpdate := nk.filterMap fun n =>
      match newLookup desired n, curLookup current n with
      | some nc, some cu => if cu.hash ≠ nc.hash then some nc else none
      | _, _ => none
    toRemove := ck.filterMap fun n =>
      match newLookup desired n with
      | some _ => none
      | none => curLookup current n }

/-- Embedding of Reconciler.determineHandler. -/
def determineHandler (c : ComponentConfig) : String :=
  match c.type with
  | "script" => if c.managed then "agent" else "command-core"
  | "program" => "agent"
  | "service" => "nomad"
  | _ => "agent"

/-- Component row written by deployComponent: the config's fields plus the
resolved handler and the deployment id. -/
def mkDBComponent (did : Nat) (c : ComponentConfig) : DBComponent :=
  { name := c.name
    type := c.type
    handler := if c.handler = "" then determineHandler c else c.handler
    hash := c.hash
    tags := c.tags
    content := c.content
    contentURL := c.contentURL
    contentURLEncoding := c.contentURLEncoding
    nomadJob := c.nomadJob
    healthCheck := c.healthCheck
    env := c.env
    args := c.args
    managed := c.managed
    deploymentID := some did }

/-- External collaborators of the planner. -/
structure PlannerEnv where
  streams : List String
  commandCoreOk : ComponentConfig → List String → Bool
  nomadDeployOk : ComponentConfig → Bool
  nomadRemoveOk : String → Bool

/-- Controller-store state the planner reads and writes (nodes are read
only during a run). -/
structure CState where
  components : List DBComponent
  compDeployments : List CompDeployment
  nodes : List Node
  deriving Repr, DecidableEq

/-- Observable planner actions, in program order: deployment status updates,
deployment-log appends, component-deployment row pre-creations, and the two
stream broadcasts. -/
inductive PlanEvent
  | updateStatus (status : String)
  | log (component node op status : String)
  | upsertDeploying (component node : String)
  | broadcastDeployment (component : String) (targets : List String)
  | broadcastRemoval (component : String) (targets : List String)
  deriving Repr, DecidableEq

/-- Component a planner event is about, if any. -/
def PlanEvent.component : PlanEvent → Option String
  | .updateStatus _ => none
  | .log c _ _ _ => some c
  | .upsertDeploying c _ => some c
  | .broadcastDeployment c _ => some c
  | .broadcastRemoval c _ => some c

/-- Whether an event is a ComponentDeployment broadcast over the stream
registry. -/
def PlanEvent.isDeployBroadcast : PlanEvent → Bool
  | .broadcastDeployment _ _ => true
  | _ => false

/-- Embedding of Reconciler.resolveTargetNodes: all online nodes for an
empty tag list, otherwise the online nodes whose tags overlap the input. -/
def resolveTargetNodes (tags : List String) (nodes : List Node) : List Node :=
  if tags.isEmpty then listOnlineNodes nodes
  else (getNodesByTags tags nodes).filter (fun n => n.online)

/-- Hostnames deployViaAgent actually targets: the resolved nodes that have
an agent. -/
def agentTargets (nodes : List Node) : List String :=
  (nodes.filter (fun n => n.hasAgent)).map (fun n => n.hostname)

/-- The "deploying" row pre-created for one target node, with the message
"Deployment command sent to agent". -/
def mkDeployingRow (did : Nat) (component node : String) : CompDeployment :=
  { id := 0
    componentName := component
    nodeHostname := node
    deploymentID := some did
    status := "deploying"
    message := "Deployment command sent to agent"
    pid := none
    lastStartedAt := none
    lastHealthCheck := none
    healthStatus := ""
    deployedAt := none
    lastUpdated := none
    createdAt := 0 }

/-- Embedding of Reconciler.deployViaAgent: filter the resolved nodes to
those with agents, fail when none remain, otherwise upsert a deploying row
and append a log entry per target strictly before broadcasting the
deployment message; per-node send errors are logged but not fatal. -/
def deployViaAgent (did : Nat) (config : ComponentConfig) (nodes : List Node)
    (s : CState) : Except String Unit × CState × List PlanEvent :=
  let targets := agentTargets nodes
  if targets.isEmpty then
    (.error "no agents available on target nodes", s, [])
  else
    let s' :=
      { s with
          compDeployments :=
            targets.foldl
              (fun acc node => upsertComponentDeployment (mkDeployingRow did config.name node) acc)
              s.compDeployments }
    let preEvents :=
      targets.flatMap fun node =>
        [PlanEvent.upsertDeploying config.name node,
         PlanEvent.log config.name node "deploy" "initiated"]
    (.ok (), s', preEvents ++ [PlanEvent.broadcastDeployment config.name targets])

/-- Embedding of Reconciler.deployViaCommandCore. -/
def deployViaCommandCore (env : PlannerEnv) (config : ComponentConfig)
    (nodes : List Node) (s : CState) : Except String Unit × CState × List PlanEvent :=
  if config.type ≠ "script" then
    (.error "command-core handler only supports scripts", s, [])
  else
    let targets := nodes.map (fun n => n.hostname)
    if targets.isEmpty then
      (.error "no target nodes found", s, [])
    else if env.commandCoreOk config targets then
      (.ok (), s, targets.map fun n => PlanEvent.log config.name n "deploy" "success")
    else
      (.error "command-core dispatch failed", s, [])

/-- Embedding of Reconciler.deployViaNomad. -/
def deployViaNomad (env : PlannerEnv) (config : ComponentConfig) (s : CState) :
    Except String Unit × CState × List PlanEvent :=
  if config.type ≠ "service" then
    (.error "nomad handler only supports services", s, [])
  else if env.nomadDeployOk config then
    (.ok (), s, [PlanEvent.log config.name "" "deploy" "success"])
  else
    (.error "nomad deploy failed", s, [PlanEvent.log config.name "" "deploy" "failure"])

/-- Embedding of Reconciler.deployComponent: resolve the handler, persist
the component row with its new hash, resolve the target nodes, then route
by handler (Go's switch, as an if chain). -/
def deployComponent (env : PlannerEnv) (did : Nat) (config : ComponentConfig)
    (s : CState) : Except String Unit × CState × List PlanEvent :=
  let comp := mkDBComponent did config
  let s1 := { s with components := upsertComponent comp s.components }
  let nodes := resolveTargetNodes config.tags s1.nodes
  if comp.handler = "agent" then deployViaAgent did config nodes s1
  else if comp.handler = "command-core" then deployViaCommandCore env config nodes s1
  else if comp.handler = "nomad" then deployViaNomad env config s1
  else (.error ("unknown handler: " ++ comp.handler), s1, [])

/-- Embedding of Reconciler.removeViaAgent: collect the component's
deployment rows, broadcast a removal to their nodes, delete the rows and
the component; with no rows, just delete the component. -/
def removeViaAgent (env : PlannerEnv) (component : DBComponent) (s : CState) :
    Except String Unit × CState × List PlanEvent :=
  let deps := s.compDeployments.filter (fun d => d.componentName == component.name)
  let targets := deps.map (fun d => d.nodeHostname)
  if targets.isEmpty then
    (.ok (), { s with components := deleteComponent component.name s.components }, [])
  else
    let s1 :=
      { s with
          compDeployments :=
            targets.foldl (fun acc n => deleteCompDeployments component.name n acc)
              s.compDeployments }
    let s2 := { s1 with components := deleteComponent component.name s1.components }
    let failures := targets.filter (fun n => ¬ env.streams.contains n)
    ((if failures.isEmpty then .ok () else .error "removals failed to send"),
     s2,
     PlanEvent.broadcastRemoval component.name targets ::
       targets.map fun n => PlanEvent.log component.name n "remove" "initiated")

/-- Embedding of Reconciler.removeViaNomad: the component row is deleted
only when the nomad manager accepted the removal. -/
def removeViaNomad (env : PlannerEnv) (component : DBComponent) (s : CState) :
    Except String Unit × CState × List PlanEvent :=
  if env.nomadRemoveOk component.name then
    (.ok (), { s with components := deleteComponent component.name s.components },
     [PlanEvent.log component.name "" "remove" "success"])
  else
    (.error "nomad remove failed", s, [PlanEvent.log component.name "" "remove" "failure"])

/-- Embedding of Reconciler.removeComponent's handler switch (as an if
chain). -/
def removeComponent (env : PlannerEnv) (component : DBComponent) (s : CState) :
    Except String Unit × CState × List PlanEvent :=
  if component.handler = "agent" then removeViaAgent env component s
  else if component.handler = "nomad" then removeViaNomad env component s
  else if component.handler = "command-core" then
    (.ok (), { s with components := deleteComponent component.name s.components }, [])
  else (.error ("unknown handler: " ++ component.handler), s, [])

/-- One removal step of ProcessDeployment's first loop: a failed removal
appends a remove/failure log entry and the loop continues. -/
def removeStep (env : PlannerEnv) (acc : CState × List PlanEvent) (comp : DBComponent) :
    CState × List PlanEvent :=
  match removeComponent env comp acc.1 with
  | (.error _, s', evs) =>
    (s', acc.2 ++ evs ++ [PlanEvent.log comp.name "" "remove" "failure"])
  | (.ok _, s', evs) => (s', acc.2 ++ evs)

/-- One update/addition step of ProcessDeployment: a failure is logged to
the process log only (no deployment-log event) and the loop continues. -/
def deployStep (env : PlannerEnv) (did : Nat) (acc : CState × List PlanEvent)
    (config : ComponentConfig) : CState × List PlanEvent :=
  let r := deployComponent env did config acc.1
  (r.2.1, acc.2 ++ r.2.2)

/-- Embedding of Reconciler.ProcessDeployment: mark the deployment running,
compute the plan, then execute all removals, then all updates, then all
additions. -/
def processDeployment (env : PlannerEnv) (did : Nat) (desired : List ComponentConfig)
    (s : CState) : CState × List PlanEvent :=
  let plan := computePlan s.components desired
  let r1 := plan.toRemove.foldl (removeStep env) (s, [PlanEvent.updateStatus "running"])
  let r2 := plan.toUpdate.foldl (deployStep env did) r1
  let r3 := plan.toAdd.foldl (deployStep env did) r2
  r3

/-! ## Generic list-store lemmas -/

theorem find?_map_if_same {α : Type} (p : α → Bool) (c : α) (hc : p c = true) (l : List α) :
    (l.map fun x => if p x then c else x).find? p = ((l.find? p).map fun _ => c) := by
  induction l with
  | nil => simp
  | cons x xs ih =>
    by_cases hx : p x = true
    · simp [hx, hc]
    · simp only [List.map_cons, List.find?_cons]
      rw [if_neg (by simp [hx])]
      simp only [Bool.not_eq_true] at hx
      simp [hx, ih]

theorem find?_map_if_other {α : Type} (p q : α → Bool) (c : α)
    (hdisj : ∀ x, q x = true → p x = false) (hc : p c = false) (l : List α) :
    (l.map fun x => if q x then c else x).find? p = l.find? p := by
  induction l with
  | nil => simp
  | cons x xs ih =>
    by_cases hx : q x = true
    · simp only [List.map_cons, if_pos hx, List.find?_cons, hc, hdisj x hx]
      exact ih
    · simp only [List.map_cons, Bool.not_eq_true] at hx ⊢
      rw [if_neg (by simp [hx])]
      simp only [List.find?_cons]
      cases hpx : p x <;> simp [hpx, ih]

theorem find?_filter_of_imp {α : Type} (p q : α → Bool) (h : ∀ x, p x = true → q x = true)
    (l : List α) : (l.filter q).find? p = l.find? p := by
  induction l with
  | nil => simp
  | cons x xs ih =>
    by_cases hq : q x = true
    · simp only [List.filter_cons, if_pos hq, List.find?_cons]
      cases hpx : p x <;> simp [hpx, ih]
    · have hp : p x = false := by
        cases hpx : p x
        · rfl
        · exact absurd (h x hpx) hq
      simp only [List.filter_cons]
      rw [if_neg hq]
      simp only [List.find?_cons, hp, ih]

theorem find?_filter_none {α : Type} (p q : α → Bool) (h : ∀ x, q x = true → p x = false)
    (l : List α) : (l.filter q).find? p = none := by
  induction l with
  | nil => simp
  | cons x xs ih =>
    by_cases hq : q x = true
    · simp only [List.filter_cons, if_pos hq, List.find?_cons, h x hq, ih]
    · simp only [List.filter_cons]
      rw [if_neg hq]
      exact ih

theorem find?_append_singleton {α : Type} (p : α → Bool) (c : α) (l : List α) :
    (l ++ [c]).find? p =
      match l.find? p with
      | some x => some x
      | none => if p c then some c else none := by
  induction l with
  | nil => simp [List.find?_cons]; cases hpc : p c <;> simp [hpc]
  | cons x xs ih =>
    simp only [List.cons_append, List.find?_cons]
    cases hpx : p x <;> simp [hpx, ih]

/-! ## Component-table lemmas -/

theorem curLookup_eq_find?_reverse (l : List DBComponent) (n : String) :
    curLookup l n = l.reverse.find? (fun x => x.name == n) := by
  unfold curLookup
  rw [List.getLast?_eq_head?_reverse, ← List.filter_reverse, List.filter_head?]

theorem curLookup_eq_some_name (l : List DBComponent) (n : String) (c : DBComponent)
    (h : curLookup l n = some c) : c.name = n := by
  rw [curLookup_eq_find?_reverse] at h
  have := List.find?_some h
  simpa using this

theorem curLookup_isSome_of_any (l : List DBComponent) (n : String)
    (h : l.any (fun x => x.name == n) = true) : (curLookup l n).isSome := by
  rw [curLookup_eq_find?_reverse]
  rw [List.find?_isSome]
  rw [List.any_eq_true] at h
  obtain ⟨x, hx, hp⟩ := h
  exact ⟨x, List.mem_reverse.mpr hx, hp⟩

theorem curLookup_upsertComponent (c : DBComponent) (l : List DBComponent) (n : String) :
    curLookup (upsertComponent c l) n = if n = c.name then some c else curLookup l n := by
  unfold upsertComponent
  by_cases hx : l.any (fun x => x.name == c.name) = true
  · rw [if_pos hx]
    by_cases hn : n = c.name
    · rw [if_pos hn, hn, curLookup_eq_find?_reverse, ← List.map_reverse,
        find?_map_if_same _ c (by simp)]
      have hsome : ((l.reverse.find? fun x => x.name == c.name).isSome) := by
        have := curLookup_isSome_of_any l c.name (by simpa using hx)
        rwa [curLookup_eq_find?_reverse] at this
      obtain ⟨v, hv⟩ := Option.isSome_iff_exists.mp hsome
      rw [hv]
      rfl
    · have hdisj : ∀ x : DBComponent, (x.name == c.name) = true → (x.name == n) = false := by
        intro x hq
        rw [beq_iff_eq] at hq
        rw [beq_eq_false_iff_ne, hq]
        intro h
        exact hn (Eq.symm h)
      have hc : (c.name == n) = false := by
        rw [beq_eq_false_iff_ne]
        intro h
        exact hn (Eq.symm h)
      rw [if_neg hn, curLookup_eq_find?_reverse, ← List.map_reverse,
        find?_map_if_other (fun x => x.name == n) (fun x => x.name == c.name) c hdisj hc,
        ← curLookup_eq_find?_reverse]
  · rw [if_neg hx]
    rw [curLookup_eq_find?_reverse, List.reverse_append]
    simp only [List.reverse_singleton, List.singleton_append, List.find?_cons]
    by_cases hn : n = c.name
    · have : (c.name == n) = true := by simp [hn]
      rw [this, if_pos hn]
    · have : (c.name == n) = false := by
        rw [beq_eq_false_iff_ne]
        intro h
        exact hn (Eq.symm h)
      rw [this, if_neg hn, ← curLookup_eq_find?_reverse]

theorem curLookup_deleteComponent (m : String) (l : List DBComponent) (n : String) :
    curLookup (deleteComponent m l) n = if n = m then none else curLookup l n := by
  unfold deleteComponent
  rw [curLookup_eq_find?_reverse, ← List.filter_reverse]
  by_cases hn : n = m
  · rw [if_pos hn]
    apply find?_filter_none
    intro x hq
    rw [beq_eq_false_iff_ne, hn]
    intro hxm
    rw [decide_eq_true_eq] at hq
    exact hq (by rw [beq_iff_eq]; exact hxm)
  · rw [if_neg hn]
    have himp : ∀ x : DBComponent, (x.name == n) = true → (decide ¬ (x.name == m) = true) = true := by
      intro x hp
      rw [beq_iff_eq] at hp
      rw [decide_eq_true_eq]
      intro hc
      rw [beq_iff_eq] at hc
      exact hn (by rw [← hp, hc])
    rw [find?_filter_of_imp _ _ himp, ← curLookup_eq_find?_reverse]

/-! ## Deployment-row, node-row and status-row lemmas -/

/-- Row stored for the natural key of d after an upsert: d itself, or d
merged with the existing row's ID and CreatedAt. -/
def upsertResultRow (d : CompDeployment) (l : List CompDeployment) : CompDeployment :=
  match findDeployment d.componentName d.nodeHostname l with
  | none => d
  | some e => { d with id := e.id, createdAt := e.createdAt }

theorem findDeployment_upsert_same (d : CompDeployment) (l : List CompDeployment) :
    findDeployment d.componentName d.nodeHostname (upsertComponentDeployment d l) =
      some (upsertResultRow d l) := by
  unfold upsertComponentDeployment upsertResultRow findDeployment
  rcases hf : l.find? (fun x => x.componentName == d.componentName &&
      x.nodeHostname == d.nodeHostname) with _ | e
  · rw [hf, find?_append_singleton, hf]
    simp
  · rw [hf, find?_map_if_same _ _ (by simp), hf]
    rfl

theorem findDeployment_upsert_other (c n : String) (d : CompDeployment)
    (l : List CompDeployment) (hne : ¬ (c = d.componentName ∧ n = d.nodeHostname)) :
    findDeployment c n (upsertComponentDeployment d l) = findDeployment c n l := by
  unfold upsertComponentDeployment findDeployment
  have hdisj : ∀ x : CompDeployment,
      (x.componentName == d.componentName && x.nodeHostname == d.nodeHostname) = true →
      (x.componentName == c && x.nodeHostname == n) = false := by
    intro x hq
    rw [Bool.and_eq_true, beq_iff_eq, beq_iff_eq] at hq
    by_contra hb
    rw [Bool.not_eq_false, Bool.and_eq_true, beq_iff_eq, beq_iff_eq] at hb
    exact hne ⟨by rw [← hb.1, hq.1], by rw [← hb.2, hq.2]⟩
  rcases hf : l.find? (fun x => x.componentName == d.componentName &&
      x.nodeHostname == d.nodeHostname) with _ | e
  · rw [hf, find?_append_singleton]
    have hd : (d.componentName == c && d.nodeHostname == n) = false := by
      by_contra hb
      rw [Bool.not_eq_false, Bool.and_eq_true, beq_iff_eq, beq_iff_eq] at hb
      exact hne ⟨hb.1.symm, hb.2.symm⟩
    rcases hg : l.find? (fun x => x.componentName == c && x.nodeHostname == n) with _ | v
    · rw [hg, hd]
      simp
    · rw [hg]
  · rw [hf]
    exact find?_map_if_other _ _ _ hdisj
      (by
        by_contra hb
        rw [Bool.not_eq_false, Bool.and_eq_true, beq_iff_eq, beq_iff_eq] at hb
        exact hne ⟨hb.1.symm, hb.2.symm⟩) l

theorem findNode_upsertNode_same (n : Node) (l : List Node) :
    findNode n.hostname (upsertNode n l) = some n := by
  unfold upsertNode findNode
  by_cases hx : l.any (fun x => x.hostname == n.hostname) = true
  · rw [if_pos hx]
    rw [find?_map_if_same _ _ (by simp)]
    rw [List.any_eq_true] at hx
    obtain ⟨x, hxl, hp⟩ := hx
    rcases hf : l.find? (fun x => x.hostname == n.hostname) with _ | v
    · rw [List.find?_eq_none] at hf
      exact absurd hp (hf x hxl)
    · rw [hf]
      rfl
  · rw [if_neg hx, find?_append_singleton]
    rcases hf : l.find? (fun x => x.hostname == n.hostname) with _ | v
    · rw [hf]
      simp
    · exact absurd (List.any_eq_true.mpr
        ⟨v, List.mem_of_find?_eq_some hf, List.find?_some hf⟩) hx

theorem getComponentStatus_upsert_self (s : AgentCompStatus) (l : List AgentCompStatus)
    (now : Int) :
    getComponentStatus s.componentName (upsertComponentStatus s l) now = s := by
  unfold upsertComponentStatus getComponentStatus
  by_cases hx : l.any (fun x => x.componentName == s.componentName) = true
  · rw [if_pos hx]
    rw [find?_map_if_same _ _ (by simp)]
    rw [List.any_eq_true] at hx
    obtain ⟨x, hxl, hp⟩ := hx
    rcases hf : l.find? (fun x => x.componentName == s.componentName) with _ | v
    · rw [List.find?_eq_none] at hf
      exact absurd hp (hf x hxl)
    · rw [hf]
      rfl
  · rw [if_neg hx, find?_append_singleton]
    rcases hf : l.find? (fun x => x.componentName == s.componentName) with _ | v
    · rw [hf]
      simp
    · exact absurd (List.any_eq_true.mpr
        ⟨v, List.mem_of_find?_eq_some hf, List.find?_some hf⟩) hx

/-! ## Claim C7 — offline sweeper -/

/-- C7: The offline sweeper marks offline exactly those agents whose
last heartbeat is older than now minus 2 minutes and that are currently
online; an agent whose last heartbeat is within the threshold is left
untouched, and the sweep only ever changes online from true to false. -/
theorem offline_sweep_exact (now : Int) (agents : List Agent) :
    List.Forall₂ (fun a b =>
        (b.online = false ↔ (a.online = true ∧ a.lastHeartbeat < now - 120) ∨ a.online = false) ∧
        (¬ a.lastHeartbeat < now - 120 → b = a) ∧
        (b.online = true → a.online = true) ∧
        b.hostname = a.hostname ∧ b.lastHeartbeat = a.lastHeartbeat)
      agents (MarkAgentsOffline (offlineThreshold now) agents) := by
  unfold MarkAgentsOffline offlineThreshold
  rw [List.forall₂_map_right_iff, List.forall₂_same]
  intro a _
  by_cases h : a.lastHeartbeat < now - 120 ∧ a.online = true
  · rw [if_pos h]
    refine ⟨by simp [h.2, h.1], fun hnb => absurd h.1 hnb, by simp, rfl, rfl⟩
  · rw [if_neg h]
    refine ⟨?_, fun _ => rfl, fun hb => hb, rfl, rfl⟩
    constructor
    · intro hoff
      exact Or.inr hoff
    · intro hor
      rcases hor with ⟨hon, hlt⟩ | hoff
      · exact absurd ⟨hlt, hon⟩ h
      · exact hoff

/-! ## Claim C6 — stream registry ownership -/

/-- C6 counterexample: after stream 1 registers for hostname h1 and stream 2
takes over, the teardown of the older stream calls removeStream h1, which
deletes the newer registration as well — get(h1) yields nothing instead of
stream 2, so deregistration on behalf of an older stream is not a no-op. -/
theorem streamRegistry_takeover_counterexample :
    getStream "h1" (removeStream "h1"
        (registerStream "h1" 2 (registerStream "h1" 1 emptyRegistry))) = none ∧
    ¬ getStream "h1" (removeStream "h1"
        (registerStream "h1" 2 (registerStream "h1" 1 emptyRegistry))) = some 2 := by
  have h1 : getStream "h1" (removeStream "h1"
      (registerStream "h1" 2 (registerStream "h1" 1 emptyRegistry))) = none := rfl
  refine ⟨h1, ?_⟩
  rw [h1]
  intro h
  exact Option.noConfusion h

/-- C6 (amended): registering a stream for a hostname replaces any prior
entry, so get returns the most recently registered stream and other
hostnames are unaffected; but removeStream deletes the hostname's entry
unconditionally, so a teardown that runs after another stream has taken
over the hostname removes the newer registration rather than being a
no-op. -/
theorem streamRegistry_register_replaces (reg : Registry) (h h2 : String) (s : Nat) :
    getStream h (registerStream h s reg) = some s ∧
    (¬ h2 = h → getStream h2 (registerStream h s reg) = getStream h2 reg) ∧
    getStream h (removeStream h reg) = none := by
  refine ⟨?_, ?_, ?_⟩
  · unfold getStream registerStream
    rw [if_pos rfl]
  · intro hne
    unfold getStream registerStream
    rw [if_neg hne]
  · unfold getStream removeStream
    rw [if_pos rfl]

/-- Closed instance of the amended C6 theorem at concrete inputs. -/
theorem streamRegistry_register_replaces_witness :
    getStream "b" (registerStream "a" 5 emptyRegistry) = getStream "b" emptyRegistry ∧
    getStream "a" (registerStream "a" 5 emptyRegistry) = some 5 := by
  refine ⟨(streamRegistry_register_replaces emptyRegistry "a" "b" 5).2.1 (by decide),
    (streamRegistry_register_replaces emptyRegistry "a" "b" 5).1⟩

/-! ## Claim C2 — archive extraction safety -/

theorem extractTarGz_writes_inside (destDir : String) (entries : List ArchiveEntry) :
    ∀ w ∈ (extractTarGz destDir entries).2,
      (strHasPrefix w.path (goClean destDir ++ "/")) = true := by
  induction entries with
  | nil =>
    intro w hw
    simp [extractTarGz] at hw
  | cons e rest ih =>
    intro w hw
    by_cases hg : entryAllowed destDir e.name = true
    · simp only [extractTarGz] at hw
      rw [if_neg (fun hc => hc hg)] at hw
      rcases List.mem_append.mp hw with hl | hr
      · have hpre : (strHasPrefix (goJoin destDir e.name) (goClean destDir ++ "/")) = true := hg
        cases hk : e.kind <;> rw [hk] at hl <;> simp at hl
        · rw [hl]
          exact hpre
        · rw [hl]
          exact hpre
      · exact ih w hr
    · simp only [extractTarGz] at hw
      rw [if_pos hg] at hw
      simp at hw

theorem extractTarGz_abort (destDir : String) (entries : List ArchiveEntry)
    (h : ∃ e ∈ entries, ¬ entryAllowed destDir e.name = true) :
    ∃ m, (extractTarGz destDir entries).1 = Except.error m := by
  induction entries with
  | nil =>
    obtain ⟨e, he, _⟩ := h
    simp at he
  | cons e rest ih =>
    obtain ⟨x, hx, hxg⟩ := h
    by_cases hg : entryAllowed destDir e.name = true
    · rcases List.mem_cons.mp hx with rfl | hxr
      · exact absurd hg hxg
      · obtain ⟨m, hm⟩ := ih ⟨x, hxr, hxg⟩
        refine ⟨m, ?_⟩
        simp only [extractTarGz]
        rw [if_neg (fun hc => hc hg)]
        exact hm
    · refine ⟨"illegal file path: " ++ e.name, ?_⟩
      simp only [extractTarGz]
      rw [if_pos hg]

theorem extractZip_writes_inside (destDir : String) (entries : List ArchiveEntry) :
    ∀ w ∈ (extractZip destDir entries).2,
      (strHasPrefix w.path (goClean destDir ++ "/")) = true := by
  induction entries with
  | nil =>
    intro w hw
    simp [extractZip] at hw
  | cons e rest ih =>
    intro w hw
    by_cases hg : entryAllowed destDir e.name = true
    · simp only [extractZip] at hw
      rw [if_neg (fun hc => hc hg)] at hw
      rcases List.mem_append.mp hw with hl | hr
      · have hpre : (strHasPrefix (goJoin destDir e.name) (goClean destDir ++ "/")) = true := hg
        cases hk : e.kind <;> rw [hk] at hl <;> simp at hl <;> rw [hl] <;> exact hpre
      · exact ih w hr
    · simp only [extractZip] at hw
      rw [if_pos hg] at hw
      simp at hw

theorem extractZip_abort (destDir : String) (entries : List ArchiveEntry)
    (h : ∃ e ∈ entries, ¬ entryAllowed destDir e.name = true) :
    ∃ m, (extractZip destDir entries).1 = Except.error m := by
  induction entries with
  | nil =>
    obtain ⟨e, he, _⟩ := h
    simp at he
  | cons e rest ih =>
    obtain ⟨x, hx, hxg⟩ := h
    by_cases hg : entryAllowed destDir e.name = true
    · rcases List.mem_cons.mp hx with rfl | hxr
      · exact absurd hg hxg
      · obtain ⟨m, hm⟩ := ih ⟨x, hxr, hxg⟩
        refine ⟨m, ?_⟩
        simp only [extractZip]
        rw [if_neg (fun hc => hc hg)]
        exact hm
    · refine ⟨"illegal file path: " ++ e.name, ?_⟩
      simp only [extractZip]
      rw [if_pos hg]

/-- C2: For every entry of a tar.gz or zip archive, if the cleaned join of
the destination directory and the entry name does not lie strictly inside
the destination directory, extraction aborts with an error; and every path
either extractor materializes lies strictly inside the destination
directory (it extends Clean(destDir) + "/"). -/
theorem extract_archive_safety (destDir : String) (entries : List ArchiveEntry) :
    (∀ w ∈ (extractTarGz destDir entries).2,
      (strHasPrefix w.path (goClean destDir ++ "/")) = true) ∧
    (∀ w ∈ (extractZip destDir entries).2,
      (strHasPrefix w.path (goClean destDir ++ "/")) = true) ∧
    ((∃ e ∈ entries, ¬ entryAllowed destDir e.name = true) →
      (∃ m, (extractTarGz destDir entries).1 = Except.error m) ∧
      (∃ m, (extractZip destDir entries).1 = Except.error m)) :=
  ⟨extractTarGz_writes_inside destDir entries,
   extractZip_writes_inside destDir entries,
   fun h => ⟨extractTarGz_abort destDir entries h, extractZip_abort destDir entries h⟩⟩

/-- Closed instance of C2: a traversal entry "../evil" against destination
"/data/programs/x" aborts both extractors, and a benign nested entry is
materialized inside the destination. -/
theorem extract_archive_safety_witness :
    (strHasPrefix (FsWrite.path (FsWrite.file "/data/programs/x/sub/ok"))
        (goClean "/data/programs/x" ++ "/")) = true ∧
    (∃ m, (extractTarGz "/data/programs/x"
        [{ name := "../evil", kind := EntryKind.reg }]).1 = Except.error m) ∧
    (∃ m, (extractZip "/data/programs/x"
        [{ name := "../evil", kind := EntryKind.reg }]).1 = Except.error m) := by
  refine ⟨?_, (extract_archive_safety "/data/programs/x"
      [{ name := "../evil", kind := EntryKind.reg }]).2.2
      ⟨{ name := "../evil", kind := EntryKind.reg }, by decide, by decide⟩⟩
  exact (extract_archive_safety "/data/programs/x"
      [{ name := "sub/ok", kind := EntryKind.reg }]).1
    (FsWrite.file "/data/programs/x/sub/ok") (by decide)

/-! ## Claim C1 — content integrity of DeployProgram -/

/-- C1: For a program deployment that reaches the download (a content URL is
present and no same-hash copy is already deployed), if the SHA-256 hex
digest of the downloaded bytes differs from the expected hash in the
deployment command, DeployProgram fails with an error and its whole event
trace is the removal of the temp file: the temp file is removed, and
neither the extraction into dataDir/programs/name nor StartComponent is
reached. -/
theorem deployProgram_content_integrity (env : DeployEnv) (existing : Option AgentComponent)
    (component : AgentComponent) (resp : HttpResponse)
    (hurl : ¬ component.contentURL = "")
    (hnoop : sameHashDeployed existing component.hash = false)
    (hresp : env.httpResp = Except.ok resp)
    (hstatus : resp.statusCode = 200)
    (hhash : ¬ env.sha256Hex resp.body = component.hash) :
    (∃ m, (DeployProgram env existing component).1 = Except.error m) ∧
    (DeployProgram env existing component).2 = [DeployEvent.removeTemp] ∧
    (∀ d, ¬ DeployEvent.extractArchive d ∈ (DeployProgram env existing component).2) ∧
    (∀ n, ¬ DeployEvent.startComponent n ∈ (DeployProgram env existing component).2) := by
  have hdl : downloadFile env component.hash =
      (Except.error ("hash mismatch: expected " ++ component.hash ++ ", got " ++
        env.sha256Hex resp.body), [DeployEvent.removeTemp]) := by
    unfold downloadFile
    simp only [hresp]
    rw [if_neg (by rw [hstatus]; exact fun hc => hc rfl)]
    rw [if_pos hhash]
  have hrun : DeployProgram env existing component =
      (Except.error ("download failed: " ++ ("hash mismatch: expected " ++ component.hash ++
        ", got " ++ env.sha256Hex resp.body)), [DeployEvent.removeTemp]) := by
    unfold DeployProgram
    rw [if_neg hurl, if_neg (by rw [hnoop]; exact fun hc => Bool.noConfusion hc), hdl]
  rw [hrun]
  refine ⟨⟨_, rfl⟩, rfl, ?_, ?_⟩
  · intro d hd
    simp at hd
  · intro n hn
    simp at hn

/-- Closed instance of C1: a download whose digest is "0bad" against an
expected hash "aaaa" fails, removes the temp file, and never extracts or
starts. -/
theorem deployProgram_content_integrity_witness :
    (∃ m, (DeployProgram
        { sha256Hex := fun _ => "0bad", httpResp := Except.ok { statusCode := 200, body := [1, 2, 3] },
          dataDir := "/var/cosmos", extractResult := Except.ok (),
          findExecResult := Except.ok "/var/cosmos/programs/c/c", startResult := Except.ok () }
        none
        { name := "c", type := "program", hash := "aaaa", contentURL := "http://u/c.tgz",
          contentURLEncoding := "tar.gz", content := "", executable := "", env := "",
          args := "", managed := true }).1 = Except.error m) ∧
    (DeployProgram
        { sha256Hex := fun _ => "0bad", httpResp := Except.ok { statusCode := 200, body := [1, 2, 3] },
          dataDir := "/var/cosmos", extractResult := Except.ok (),
          findExecResult := Except.ok "/var/cosmos/programs/c/c", startResult := Except.ok () }
        none
        { name := "c", type := "program", hash := "aaaa", contentURL := "http://u/c.tgz",
          contentURLEncoding := "tar.gz", content := "", executable := "", env := "",
          args := "", managed := true }).2 = [DeployEvent.removeTemp] := by
  have h := deployProgram_content_integrity
    { sha256Hex := fun _ => "0bad", httpResp := Except.ok { statusCode := 200, body := [1, 2, 3] },
      dataDir := "/var/cosmos", extractResult := Except.ok (),
      findExecResult := Except.ok "/var/cosmos/programs/c/c", startResult := Except.ok () }
    none
    { name := "c", type := "program", hash := "aaaa", contentURL := "http://u/c.tgz",
      contentURLEncoding := "tar.gz", content := "", executable := "", env := "",
      args := "", managed := true }
    { statusCode := 200, body := [1, 2, 3] }
    (by decide) (by decide) rfl rfl (by decide)
  exact ⟨h.1, h.2.1⟩

/-! ## Claim C9 — health result processing clobbers non-health columns -/

/-- C9: handleHealthResult builds a ComponentDeployment row assigning only
the health fields (health status, last health check, and the message when
the result carries one); because UpsertComponentDeployment saves that full
row over the existing one, the stored row after processing keeps only the
existing ID and CreatedAt — its status, PID, deployment id, last started at,
deployed at and last updated columns are reset to zero values rather than
preserved. -/
theorem handleHealthResult_frame (hostname : String) (result : HealthResultMsg) (now : Int)
    (deps : List CompDeployment) (r : CompDeployment)
    (hfind : findDeployment result.componentName hostname deps = some r) :
    findDeployment result.componentName hostname (handleHealthResult hostname result now deps)
      = some
        { id := r.id
          componentName := result.componentName
          nodeHostname := hostname
          deploymentID := none
          status := ""
          message := if result.message != "" then result.message else ""
          pid := none
          lastStartedAt := none
          lastHealthCheck := some now
          healthStatus :=
            if result.result != "success" && result.result != "healthy" then "unhealthy"
            else "healthy"
          deployedAt := none
          lastUpdated := none
          createdAt := r.createdAt } := by
  unfold handleHealthResult
  have h := findDeployment_upsert_same
    { id := 0
      componentName := result.componentName
      nodeHostname := hostname
      deploymentID := none
      status := ""
      message := if result.message != "" then result.message else ""
      pid := none
      lastStartedAt := none
      lastHealthCheck := some now
      healthStatus :=
        if result.result != "success" && result.result != "healthy" then "unhealthy"
        else "healthy"
      deployedAt := none
      lastUpdated := none
      createdAt := 0 } deps
  unfold upsertResultRow at h
  simp only at h ⊢
  rw [hfind] at h
  exact h

/-- Closed instance of C9: an existing running row with PID 42 loses its
status, PID and deployment id when a health result for it is processed. -/
theorem handleHealthResult_frame_witness :
    findDeployment "c" "n1" (handleHealthResult "n1"
        { componentName := "c", checkType := "http", result := "failure",
          message := "boom", timestamp := 9 } 10
        [{ id := 7, componentName := "c", nodeHostname := "n1", deploymentID := some 3,
           status := "running", message := "ok", pid := some 42, lastStartedAt := some 5,
           lastHealthCheck := none, healthStatus := "healthy", deployedAt := some 6,
           lastUpdated := some 6, createdAt := 1 }])
      = some
        { id := 7, componentName := "c", nodeHostname := "n1", deploymentID := none,
          status := "", message := "boom", pid := none, lastStartedAt := none,
          lastHealthCheck := some 10, healthStatus := "unhealthy", deployedAt := none,
          lastUpdated := none, createdAt := 1 } := by
  have h := handleHealthResult_frame "n1"
    { componentName := "c", checkType := "http", result := "failure",
      message := "boom", timestamp := 9 } 10
    [{ id := 7, componentName := "c", nodeHostname := "n1", deploymentID := some 3,
       status := "running", message := "ok", pid := some 42, lastStartedAt := some 5,
       lastHealthCheck := none, healthStatus := "healthy", deployedAt := some 6,
       lastUpdated := some 6, createdAt := 1 }]
    { id := 7, componentName := "c", nodeHostname := "n1", deploymentID := some 3,
      status := "running", message := "ok", pid := some 42, lastStartedAt := some 5,
      lastHealthCheck := none, healthStatus := "healthy", deployedAt := some 6,
      lastUpdated := some 6, createdAt := 1 }
    (by decide)
  simpa using h

/-! ## Claim C10 — heartbeat overwrites node tags with ["all"] -/

/-- C10: Processing a heartbeat upserts a Node row for the hostname with
tags exactly ["all"], online and hasAgent true and every other column at
its zero value, fully replacing the existing row; consequently the node's
tag overlap used by GetNodesByTags becomes "does the query contain the tag
all", so a tag set that matched the node's previous tags but lacks "all" no
longer matches it. -/
theorem handleHeartbeat_node_frame (hostname : String) (hb : HeartbeatMsg) (now : Int)
    (s : HeartbeatState) (r : Node)
    (hfind : findNode hostname s.nodes = some r) :
    findNode hostname (handleHeartbeat hostname hb now s).nodes
      = some { hostname := hostname, ip := "", tags := ["all"], online := true,
               hasAgent := true, lastSeen := some now, syncedAt := 0 } ∧
    (∀ tags : List String,
      tagsOverlap tags ["all"] = true ↔ "all" ∈ tags) ∧
    (∀ tags : List String, ∀ x : Node,
      (x ∈ getNodesByTags tags s.nodes ↔ x ∈ s.nodes ∧ tagsOverlap tags x.tags = true)) := by
  refine ⟨?_, ?_, ?_⟩
  · unfold handleHeartbeat
    simp only
    exact findNode_upsertNode_same
      { hostname := hostname, ip := "", tags := ["all"], online := true,
        hasAgent := true, lastSeen := some now, syncedAt := 0 } s.nodes
  · intro tags
    unfold tagsOverlap
    rw [List.any_eq_true]
    constructor
    · rintro ⟨x, hx, hc⟩
      have hx1 : x ∈ (["all"] : List String) := List.elem_iff.mp hc
      have : x = "all" := List.mem_singleton.mp hx1
      rwa [this] at hx
    · intro hmem
      refine ⟨"all", hmem, ?_⟩
      exact List.elem_iff.mpr (List.mem_singleton.mpr rfl)
  · intro tags x
    unfold getNodesByTags
    rw [List.mem_filter]

/-- Closed instance of C10: a node synced with tags ["db"] is overwritten
to tags ["all"] by a heartbeat, and the query tag set ["db"] that matched
it before no longer overlaps the stored tags. -/
theorem handleHeartbeat_node_frame_witness :
    findNode "n1" (handleHeartbeat "n1" { agentVersion := "1.0", componentStatuses := [] } 50
        { agents := [],
          nodes := [{ hostname := "n1", ip := "10.0.0.9", tags := ["db"], online := true,
                      hasAgent := false, lastSeen := some 1, syncedAt := 2 }],
          compDeployments := [] }).nodes
      = some { hostname := "n1", ip := "", tags := ["all"], online := true,
               hasAgent := true, lastSeen := some 50, syncedAt := 0 } ∧
    ¬ tagsOverlap ["db"] ["all"] = true := by
  have h := handleHeartbeat_node_frame "n1" { agentVersion := "1.0", componentStatuses := [] } 50
    { agents := [],
      nodes := [{ hostname := "n1", ip := "10.0.0.9", tags := ["db"], online := true,
                  hasAgent := false, lastSeen := some 1, syncedAt := 2 }],
      compDeployments := [] }
    { hostname := "n1", ip := "10.0.0.9", tags := ["db"], online := true,
      hasAgent := false, lastSeen := some 1, syncedAt := 2 }
    (by decide)
  refine ⟨h.1, ?_⟩
  intro hov
  have := (h.2.1 ["db"]).mp hov
  simp at this

/-! ## Claim C8 — spawn failure and process-exit supervision -/

/-- C8: The exit half of the claim holds: when a started process exits, the
monitor stores status stopped with the exit cause as the message.  The
spawn half does not: when cmd.Start fails, StartComponent returns the error
without writing any status row, so the stored ComponentStatus keeps its
previous value (here "stopped") and is never set to "failed" — at the
concrete failing input below the status table is returned unchanged. -/
theorem startComponent_spawn_failure_status :
    ((StartComponent
        { isProcessRunning := fun _ => false, spawnResult := Except.error "exec failed", now := 5 }
        (some { name := "c", type := "program", hash := "h", contentURL := "", contentURLEncoding := "",
                content := "", executable := "/bin/c", env := "", args := "", managed := true })
        [{ componentName := "c", status := "stopped", message := "", pid := 0,
           lastStartedAt := none, lastCheckedAt := 0, restartCount := 0 }]).1
      = Except.error "failed to start process: exec failed" ∧
     (StartComponent
        { isProcessRunning := fun _ => false, spawnResult := Except.error "exec failed", now := 5 }
        (some { name := "c", type := "program", hash := "h", contentURL := "", contentURLEncoding := "",
                content := "", executable := "/bin/c", env := "", args := "", managed := true })
        [{ componentName := "c", status := "stopped", message := "", pid := 0,
           lastStartedAt := none, lastCheckedAt := 0, restartCount := 0 }]).2
      = [{ componentName := "c", status := "stopped", message := "", pid := 0,
           lastStartedAt := none, lastCheckedAt := 0, restartCount := 0 }] ∧
     ¬ (getComponentStatus "c"
         (StartComponent
            { isProcessRunning := fun _ => false, spawnResult := Except.error "exec failed", now := 5 }
            (some { name := "c", type := "program", hash := "h", contentURL := "", contentURLEncoding := "",
                    content := "", executable := "/bin/c", env := "", args := "", managed := true })
            [{ componentName := "c", status := "stopped", message := "", pid := 0,
               lastStartedAt := none, lastCheckedAt := 0, restartCount := 0 }]).2 5).status
        = "failed") ∧
    (∀ (name e : String) (now : Int) (statuses : List AgentCompStatus),
      (getComponentStatus name (monitorProcess name (some e) now statuses) now).status
          = "stopped" ∧
      (getComponentStatus name (monitorProcess name (some e) now statuses) now).message
          = "Process exited with error: " ++ e) := by
  constructor
  · refine ⟨rfl, rfl, by decide⟩
  · intro name e now statuses
    have hn : (getComponentStatus name statuses now).componentName = name := by
      unfold getComponentStatus
      rcases hf : statuses.find? (fun s => s.componentName == name) with _ | v
      · rw [hf]
      · rw [hf]
        have := List.find?_some hf
        simpa using this
    have h := getComponentStatus_upsert_self
      { getComponentStatus name statuses now with
          status := "stopped"
          lastCheckedAt := now
          message := "Process exited with error: " ++ e } statuses now
    simp only at h
    rw [hn] at h
    simp only [monitorProcess]
    rw [hn, h]
    exact ⟨rfl, rfl⟩

/-! ## Claim C5 — deploying rows exist before the broadcast -/

theorem upsertResultRow_fields (d : CompDeployment) (l : List CompDeployment) :
    (upsertResultRow d l).status = d.status ∧
    (upsertResultRow d l).message = d.message ∧
    (upsertResultRow d l).componentName = d.componentName ∧
    (upsertResultRow d l).nodeHostname = d.nodeHostname := by
  unfold upsertResultRow
  rcases findDeployment d.componentName d.nodeHostname l with _ | e
  · exact ⟨rfl, rfl, rfl, rfl⟩
  · exact ⟨rfl, rfl, rfl, rfl⟩

theorem foldUpsertDeploying_preserve (did : Nat) (c node : String) (targets : List String)
    (hnot : ¬ node ∈ targets) (deps : List CompDeployment) :
    findDeployment c node
      (targets.foldl (fun acc n => upsertComponentDeployment (mkDeployingRow did c n) acc) deps)
      = findDeployment c node deps := by
  induction targets generalizing deps with
  | nil => rfl
  | cons t ts ih =>
    rw [List.foldl_cons]
    rw [ih (fun h => hnot (List.mem_cons_of_mem _ h))]
    apply findDeployment_upsert_other
    rintro ⟨_, hn2⟩
    exact hnot (by
      have : node = t := hn2
      rw [this]
      exact List.mem_cons_self _ _)

theorem foldUpsertDeploying_find (did : Nat) (c : String) (targets : List String)
    (deps : List CompDeployment) :
    ∀ node ∈ targets, ∃ row,
      findDeployment c node
        (targets.foldl (fun acc n => upsertComponentDeployment (mkDeployingRow did c n) acc) deps)
        = some row ∧ row.status = "deploying" ∧
        row.message = "Deployment command sent to agent" := by
  induction targets generalizing deps with
  | nil =>
    intro node h
    simp at h
  | cons t ts ih =>
    intro node hmem
    rw [List.foldl_cons]
    rcases List.mem_cons.mp hmem with rfl | hts
    · by_cases htts : node ∈ ts
      · exact ih _ node htts
      · rw [foldUpsertDeploying_preserve did c node ts htts]
        refine ⟨upsertResultRow (mkDeployingRow did c node) deps, ?_, ?_, ?_⟩
        · exact findDeployment_upsert_same (mkDeployingRow did c node) deps
        · exact (upsertResultRow_fields (mkDeployingRow did c node) deps).1
        · exact (upsertResultRow_fields (mkDeployingRow did c node) deps).2.1
    · exact ih _ node hts

/-- C5: With a nonempty agent target set, deployViaAgent upserts a
ComponentDeployment row with status deploying for every (component, node)
pair at a trace position strictly before the single broadcast event, and in
the state at which the broadcast is initiated every such row exists with
status deploying. -/
theorem deployViaAgent_precreate (did : Nat) (config : ComponentConfig)
    (nodes : List Node) (s : CState)
    (hne : ¬ agentTargets nodes = []) :
    (∃ i, ((deployViaAgent did config nodes s).2.2).get? i
        = some (PlanEvent.broadcastDeployment config.name (agentTargets nodes)) ∧
      (∀ node ∈ agentTargets nodes, ∃ j, j < i ∧
        ((deployViaAgent did config nodes s).2.2).get? j
          = some (PlanEvent.upsertDeploying config.name node))) ∧
    (∀ node ∈ agentTargets nodes, ∃ row,
      findDeployment config.name node
          ((deployViaAgent did config nodes s).2.1).compDeployments = some row ∧
        row.status = "deploying" ∧ row.message = "Deployment command sent to agent") := by
  have hrun : deployViaAgent did config nodes s =
      (Except.ok (),
       { s with
           compDeployments :=
             (agentTargets nodes).foldl
               (fun acc node =>
                 upsertComponentDeployment (mkDeployingRow did config.name node) acc)
               s.compDeployments },
       ((agentTargets nodes).flatMap fun node =>
          [PlanEvent.upsertDeploying config.name node,
           PlanEvent.log config.name node "deploy" "initiated"]) ++
         [PlanEvent.broadcastDeployment config.name (agentTargets nodes)]) := by
    unfold deployViaAgent
    rw [if_neg (by
      intro hc
      exact hne (List.isEmpty_iff.mp hc))]
  rw [hrun]
  constructor
  · refine ⟨((agentTargets nodes).flatMap fun node =>
        [PlanEvent.upsertDeploying config.name node,
         PlanEvent.log config.name node "deploy" "initiated"]).length, ?_, ?_⟩
    · rw [List.get?_append_right (Nat.le_refl _)]
      simp
    · intro node hnode
      have hmem : PlanEvent.upsertDeploying config.name node ∈
          ((agentTargets nodes).flatMap fun node =>
            [PlanEvent.upsertDeploying config.name node,
             PlanEvent.log config.name node "deploy" "initiated"]) := by
        exact List.mem_flatMap.mpr ⟨node, hnode, by simp⟩
      obtain ⟨j, hj⟩ := List.get?_of_mem hmem
      have hjlt : j < ((agentTargets nodes).flatMap fun node =>
          [PlanEvent.upsertDeploying config.name node,
           PlanEvent.log config.name node "deploy" "initiated"]).length := by
        rcases List.get?_eq_some.mp hj with ⟨h, _⟩
        exact h
      exact ⟨j, hjlt, by rw [List.get?_append hjlt]; exact hj⟩
  · intro node hnode
    exact foldUpsertDeploying_find did config.name (agentTargets nodes)
      s.compDeployments node hnode

/-- Closed instance of C5: one target node, row present with status
deploying in the post-state. -/
theorem deployViaAgent_precreate_witness :
    ∃ row,
      findDeployment "c" "n1"
          ((deployViaAgent 1
            { name := "c", type := "program", handler := "agent", hash := "h", tags := [],
              content := "", contentURL := "http://u", contentURLEncoding := "", nomadJob := "",
              healthCheck := none, env := none, args := [], managed := true }
            [{ hostname := "n1", ip := "", tags := ["all"], online := true, hasAgent := true,
               lastSeen := none, syncedAt := 0 }]
            { components := [], compDeployments := [], nodes := [] }).2.1).compDeployments
        = some row ∧
      row.status = "deploying" ∧ row.message = "Deployment command sent to agent" :=
  (deployViaAgent_precreate 1
    { name := "c", type := "program", handler := "agent", hash := "h", tags := [],
      content := "", contentURL := "http://u", contentURLEncoding := "", nomadJob := "",
      healthCheck := none, env := none, args := [], managed := true }
    [{ hostname := "n1", ip := "", tags := ["all"], online := true, hasAgent := true,
       lastSeen := none, syncedAt := 0 }]
    { components := [], compDeployments := [], nodes := [] }
    (by decide)).2 "n1" (by decide)

/-! ## Planner step lemmas -/

/-- Whether removeComponent deletes the component row: always for the agent
and command-core handlers, for nomad only when the external manager accepts
the removal, never for an unknown handler. -/
def removalKills (env : PlannerEnv) (c : DBComponent) : Bool :=
  if c.handler = "agent" then true
  else if c.handler = "nomad" then env.nomadRemoveOk c.name
  else if c.handler = "command-core" then true
  else false

theorem removeViaAgent_components (env : PlannerEnv) (c : DBComponent) (s : CState) :
    ((removeViaAgent env c s).2.1).components = deleteComponent c.name s.components ∧
    ((removeViaAgent env c s).2.1).nodes = s.nodes := by
  unfold removeViaAgent
  by_cases hd : ((s.compDeployments.filter
      (fun d => d.componentName == c.name)).map (fun d => d.nodeHostname)).isEmpty = true
  · rw [if_pos hd]
    exact ⟨rfl, rfl⟩
  · rw [if_neg hd]
    exact ⟨rfl, rfl⟩

theorem removeComponent_components (env : PlannerEnv) (c : DBComponent) (s : CState) :
    ((removeComponent env c s).2.1).components =
      (if removalKills env c = true then deleteComponent c.name s.components
       else s.components) ∧
    ((removeComponent env c s).2.1).nodes = s.nodes := by
  unfold removeComponent removalKills
  by_cases h1 : c.handler = "agent"
  · rw [if_pos h1, if_pos h1]
    refine ⟨?_, (removeViaAgent_components env c s).2⟩
    rw [(removeViaAgent_components env c s).1]
    simp
  · rw [if_neg h1, if_neg h1]
    by_cases h2 : c.handler = "nomad"
    · rw [if_pos h2, if_pos h2]
      unfold removeViaNomad
      by_cases hok : env.nomadRemoveOk c.name = true
      · rw [if_pos hok, if_pos hok]
        exact ⟨rfl, rfl⟩
      · rw [if_neg hok, if_neg (by rw [Bool.not_eq_true] at hok; rw [hok]; simp)]
        exact ⟨rfl, rfl⟩
    · rw [if_neg h2, if_neg h2]
      by_cases h3 : c.handler = "command-core"
      · rw [if_pos h3, if_pos h3]
        simp
      · rw [if_neg h3, if_neg h3]
        simp

theorem removeComponent_noop_of_not_kills (env : PlannerEnv) (c : DBComponent) (s : CState)
    (hnk : removalKills env c = false) :
    (removeComponent env c s).2.1 = s ∧
    (∃ m, (removeComponent env c s).1 = Except.error m) ∧
    (∀ e ∈ (removeComponent env c s).2.2, e.isDeployBroadcast = false) := by
  unfold removalKills at hnk
  unfold removeComponent
  by_cases h1 : c.handler = "agent"
  · rw [if_pos h1] at hnk
    exact absurd hnk (by simp)
  · rw [if_neg h1] at hnk
    rw [if_neg h1]
    by_cases h2 : c.handler = "nomad"
    · rw [if_pos h2] at hnk
      rw [if_pos h2]
      unfold removeViaNomad
      rw [if_neg (by rw [hnk]; exact fun hc => Bool.noConfusion hc)]
      refine ⟨rfl, ⟨_, rfl⟩, ?_⟩
      intro e he
      simp at he
      rw [he]
      rfl
    · rw [if_neg h2] at hnk
      rw [if_neg h2]
      by_cases h3 : c.handler = "command-core"
      · rw [if_pos h3] at hnk
        exact absurd hnk (by simp)
      · rw [if_neg h3]
        refine ⟨rfl, ⟨_, rfl⟩, ?_⟩
        intro e he
        simp at he

theorem deployViaAgent_components (did : Nat) (config : ComponentConfig)
    (nodes : List Node) (s : CState) :
    ((deployViaAgent did config nodes s).2.1).components = s.components ∧
    ((deployViaAgent did config nodes s).2.1).nodes = s.nodes := by
  unfold deployViaAgent
  by_cases ht : (agentTargets nodes).isEmpty = true
  · rw [if_pos ht]
    exact ⟨rfl, rfl⟩
  · rw [if_neg ht]
    exact ⟨rfl, rfl⟩

theorem deployViaCommandCore_state (env : PlannerEnv) (config : ComponentConfig)
    (nodes : List Node) (s : CState) :
    (deployViaCommandCore env config nodes s).2.1 = s := by
  unfold deployViaCommandCore
  by_cases h1 : config.type ≠ "script"
  · rw [if_pos h1]
  · rw [if_neg h1]
    by_cases h2 : (nodes.map (fun n => n.hostname)).isEmpty = true
    · rw [if_pos h2]
    · rw [if_neg h2]
      by_cases h3 : env.commandCoreOk config (nodes.map (fun n => n.hostname)) = true
      · rw [if_pos h3]
      · rw [if_neg h3]

theorem deployViaNomad_state (env : PlannerEnv) (config : ComponentConfig) (s : CState) :
    (deployViaNomad env config s).2.1 = s := by
  unfold deployViaNomad
  by_cases h1 : config.type ≠ "service"
  · rw [if_pos h1]
  · rw [if_neg h1]
    by_cases h2 : env.nomadDeployOk config = true
    · rw [if_pos h2]
    · rw [if_neg h2]

theorem deployComponent_components (env : PlannerEnv) (did : Nat) (config : ComponentConfig)
    (s : CState) :
    ((deployComponent env did config s).2.1).components =
      upsertComponent (mkDBComponent did config) s.components ∧
    ((deployComponent env did config s).2.1).nodes = s.nodes := by
  unfold deployComponent
  by_cases h1 : (mkDBComponent did config).handler = "agent"
  · rw [if_pos h1]
    exact deployViaAgent_components did config _ _
  · rw [if_neg h1]
    by_cases h2 : (mkDBComponent did config).handler = "command-core"
    · rw [if_pos h2, deployViaCommandCore_state]
      exact ⟨rfl, rfl⟩
    · rw [if_neg h2]
      by_cases h3 : (mkDBComponent did config).handler = "nomad"
      · rw [if_pos h3, deployViaNomad_state]
        exact ⟨rfl, rfl⟩
      · rw [if_neg h3]
        exact ⟨rfl, rfl⟩

theorem removeComponent_events_about (env : PlannerEnv) (c : DBComponent) (s : CState) :
    ∀ e ∈ (removeComponent env c s).2.2, ∀ cn, e.component = some cn → cn = c.name := by
  unfold removeComponent
  by_cases h1 : c.handler = "agent"
  · rw [if_pos h1]
    unfold removeViaAgent
    by_cases hd : ((s.compDeployments.filter
        (fun d => d.componentName == c.name)).map (fun d => d.nodeHostname)).isEmpty = true
    · rw [if_pos hd]
      intro e he
      simp at he
    · rw [if_neg hd]
      intro e he cn hcn
      rcases List.mem_cons.mp he with rfl | hm
      · simp [PlanEvent.component] at hcn
        exact hcn.symm
      · obtain ⟨x, _, rfl⟩ := List.mem_map.mp hm
        simp [PlanEvent.component] at hcn
        exact hcn.symm
  · rw [if_neg h1]
    by_cases h2 : c.handler = "nomad"
    · rw [if_pos h2]
      unfold removeViaNomad
      by_cases hok : env.nomadRemoveOk c.name = true
      · rw [if_pos hok]
        intro e he cn hcn
        simp at he
        rw [he] at hcn
        simp [PlanEvent.component] at hcn
        exact hcn.symm
      · rw [if_neg hok]
        intro e he cn hcn
        simp at he
        rw [he] at hcn
        simp [PlanEvent.component] at hcn
        exact hcn.symm
    · rw [if_neg h2]
      by_cases h3 : c.handler = "command-core"
      · rw [if_pos h3]
        intro e he
        simp at he
      · rw [if_neg h3]
        intro e he
        simp at he

theorem deployComponent_events_about (env : PlannerEnv) (did : Nat)
    (config : ComponentConfig) (s : CState) :
    ∀ e ∈ (deployComponent env did config s).2.2, ∀ cn, e.component = some cn →
      cn = config.name := by
  unfold deployComponent
  by_cases h1 : (mkDBComponent did config).handler = "agent"
  · rw [if_pos h1]
    unfold deployViaAgent
    by_cases ht : (agentTargets (resolveTargetNodes config.tags s.nodes)).isEmpty = true
    · rw [if_pos ht]
      intro e he
      simp at he
    · rw [if_neg ht]
      intro e he cn hcn
      rcases List.mem_append.mp he with hm | hm
      · obtain ⟨x, _, hx⟩ := List.mem_flatMap.mp hm
        rcases List.mem_cons.mp hx with rfl | hx2
        · simp [PlanEvent.component] at hcn
          exact hcn.symm
        · simp at hx2
          rw [hx2] at hcn
          simp [PlanEvent.component] at hcn
          exact hcn.symm
      · simp at hm
        rw [hm] at hcn
        simp [PlanEvent.component] at hcn
        exact hcn.symm
  · rw [if_neg h1]
    by_cases h2 : (mkDBComponent did config).handler = "command-core"
    · rw [if_pos h2]
      unfold deployViaCommandCore
      by_cases hs : config.type ≠ "script"
      · rw [if_pos hs]
        intro e he
        simp at he
      · rw [if_neg hs]
        by_cases hn : ((resolveTargetNodes config.tags s.nodes).map (fun n => n.hostname)).isEmpty = true
        · rw [if_pos hn]
          intro e he
          simp at he
        · rw [if_neg hn]
          by_cases hk : env.commandCoreOk config ((resolveTargetNodes config.tags s.nodes).map (fun n => n.hostname)) = true
          · rw [if_pos hk]
            intro e he cn hcn
            obtain ⟨x, _, rfl⟩ := List.mem_map.mp he
            simp [PlanEvent.component] at hcn
            exact hcn.symm
          · rw [if_neg hk]
            intro e he
            simp at he
    · rw [if_neg h2]
      by_cases h3 : (mkDBComponent did config).handler = "nomad"
      · rw [if_pos h3]
        unfold deployViaNomad
        by_cases hs : config.type ≠ "service"
        · rw [if_pos hs]
          intro e he
          simp at he
        · rw [if_neg hs]
          by_cases hk : env.nomadDeployOk config = true
          · rw [if_pos hk]
            intro e he cn hcn
            simp at he
            rw [he] at hcn
            simp [PlanEvent.component] at hcn
            exact hcn.symm
          · rw [if_neg hk]
            intro e he cn hcn
            simp at he
            rw [he] at hcn
            simp [PlanEvent.component] at hcn
            exact hcn.symm
      · rw [if_neg h3]
        intro e he
        simp at he

theorem removeStep_decomp (env : PlannerEnv) (acc : CState × List PlanEvent)
    (r : DBComponent) :
    (removeStep env acc r).1 = (removeComponent env r acc.1).2.1 ∧
    ∃ tail, (removeStep env acc r).2 = acc.2 ++ ((removeComponent env r acc.1).2.2 ++ tail) ∧
      (tail = [] ∨ tail = [PlanEvent.log r.name "" "remove" "failure"]) := by
  unfold removeStep
  rcases h : removeComponent env r acc.1 with ⟨res, s2, evs2⟩
  cases res with
  | error m =>
    refine ⟨rfl, [PlanEvent.log r.name "" "remove" "failure"], ?_, Or.inr rfl⟩
    simp
  | ok u =>
    refine ⟨rfl, [], ?_, Or.inl rfl⟩
    simp

theorem deployStep_decomp (env : PlannerEnv) (did : Nat) (acc : CState × List PlanEvent)
    (config : ComponentConfig) :
    (deployStep env did acc config).1 = (deployComponent env did config acc.1).2.1 ∧
    (deployStep env did acc config).2 = acc.2 ++ (deployComponent env did config acc.1).2.2 :=
  ⟨rfl, rfl⟩

/-! ## Fold lemmas over the three action classes -/

theorem foldRemove_preserve (env : PlannerEnv) (rs : List DBComponent) (n : String)
    (hno : ∀ c ∈ rs, ¬ c.name = n) :
    ∀ acc : CState × List PlanEvent,
      curLookup ((rs.foldl (removeStep env) acc).1).components n =
        curLookup acc.1.components n := by
  induction rs with
  | nil => intro acc; rfl
  | cons r rest ih =>
    intro acc
    rw [List.foldl_cons]
    rw [ih (fun c hc => hno c (List.mem_cons_of_mem _ hc)) _]
    rw [(removeStep_decomp env acc r).1, (removeComponent_components env r acc.1).1]
    by_cases hk : removalKills env r = true
    · rw [if_pos hk, curLookup_deleteComponent,
        if_neg (fun hc => hno r (List.mem_cons_self _ _) (Eq.symm hc))]
    · rw [if_neg hk]

theorem foldRemove_lookup (env : PlannerEnv) (rs : List DBComponent) (n : String)
    (hnd : (rs.map (fun c => c.name)).Nodup) :
    ∀ acc : CState × List PlanEvent,
      curLookup ((rs.foldl (removeStep env) acc).1).components n =
        match rs.find? (fun c => c.name == n) with
        | some c =>
          if removalKills env c = true then none else curLookup acc.1.components n
        | none => curLookup acc.1.components n := by
  induction rs with
  | nil => intro acc; rfl
  | cons r rest ih =>
    intro acc
    rw [List.foldl_cons]
    rw [List.map_cons, List.nodup_cons] at hnd
    by_cases hr : r.name = n
    · have hbeq : (r.name == n) = true := by simp [hr]
      simp only [List.find?_cons, hbeq]
      have hrest : ∀ c ∈ rest, ¬ c.name = n := by
        intro c hc hcn
        exact hnd.1 (List.mem_map.mpr ⟨c, hc, by rw [hcn, hr]⟩)
      rw [foldRemove_preserve env rest n hrest _]
      rw [(removeStep_decomp env acc r).1, (removeComponent_components env r acc.1).1]
      by_cases hk : removalKills env r = true
      · rw [if_pos hk, if_pos hk, curLookup_deleteComponent, if_pos (Eq.symm hr)]
      · rw [if_neg hk, if_neg hk]
    · have hbeq : (r.name == n) = false := by
        rw [beq_eq_false_iff_ne]
        exact hr
      simp only [List.find?_cons, hbeq]
      rw [ih hnd.2 _]
      have hstep : curLookup ((removeStep env acc r).1).components n =
          curLookup acc.1.components n := by
        rw [(removeStep_decomp env acc r).1, (removeComponent_components env r acc.1).1]
        by_cases hk : removalKills env r = true
        · rw [if_pos hk, curLookup_deleteComponent, if_neg (fun hc => hr (Eq.symm hc))]
        · rw [if_neg hk]
      rcases hf : rest.find? (fun c => c.name == n) with _ | c
      · simp only [hf]
        exact hstep
      · simp only [hf]
        rw [hstep]

theorem foldRemove_noop (env : PlannerEnv) (rs : List DBComponent)
    (hall : ∀ c ∈ rs, removalKills env c = false) :
    ∀ acc : CState × List PlanEvent,
      (rs.foldl (removeStep env) acc).1 = acc.1 ∧
      ∀ e ∈ (rs.foldl (removeStep env) acc).2,
        e ∈ acc.2 ∨ e.isDeployBroadcast = false := by
  induction rs with
  | nil =>
    intro acc
    exact ⟨rfl, fun e he => Or.inl he⟩
  | cons r rest ih =>
    intro acc
    rw [List.foldl_cons]
    have hnk := hall r (List.mem_cons_self _ _)
    have hnoop := removeComponent_noop_of_not_kills env r acc.1 hnk
    have hstep1 : (removeStep env acc r).1 = acc.1 := by
      rw [(removeStep_decomp env acc r).1, hnoop.1]
    have hres := ih (fun c hc => hall c (List.mem_cons_of_mem _ hc)) (removeStep env acc r)
    refine ⟨by rw [hres.1, hstep1], ?_⟩
    intro e he
    rcases hres.2 e he with hin | hbf
    · obtain ⟨tail, htl, htc⟩ := (removeStep_decomp env acc r).2
      rw [htl] at hin
      rcases List.mem_append.mp hin with h1 | h2
      · exact Or.inl h1
      · rcases List.mem_append.mp h2 with h3 | h4
        · exact Or.inr (hnoop.2.2 e h3)
        · rcases htc with rfl | rfl
          · simp at h4
          · simp at h4
            rw [h4]
            exact Or.inr rfl
    · exact Or.inr hbf

theorem foldRemove_events (env : PlannerEnv) (rs : List DBComponent) :
    ∀ acc : CState × List PlanEvent,
      ∃ extra, (rs.foldl (removeStep env) acc).2 = acc.2 ++ extra ∧
        ∀ e ∈ extra, ∀ cn, e.component = some cn → ∃ c ∈ rs, c.name = cn := by
  induction rs with
  | nil =>
    intro acc
    exact ⟨[], by simp, fun e he => by simp at he⟩
  | cons r rest ih =>
    intro acc
    rw [List.foldl_cons]
    obtain ⟨tail, htl, htc⟩ := (removeStep_decomp env acc r).2
    obtain ⟨extra2, hex2, hab2⟩ := ih (removeStep env acc r)
    refine ⟨((removeComponent env r acc.1).2.2 ++ tail) ++ extra2, ?_, ?_⟩
    · rw [hex2, htl, List.append_assoc]
    · intro e he cn hcn
      rcases List.mem_append.mp he with h1 | h2
      · rcases List.mem_append.mp h1 with h3 | h4
        · exact ⟨r, List.mem_cons_self _ _,
            (removeComponent_events_about env r acc.1 e h3 cn hcn).symm ▸ rfl⟩
        · rcases htc with rfl | rfl
          · simp at h4
          · simp at h4
            rw [h4] at hcn
            simp [PlanEvent.component] at hcn
            exact ⟨r, List.mem_cons_self _ _, hcn⟩
      · obtain ⟨c, hc, hcn2⟩ := hab2 e h2 cn hcn
        exact ⟨c, List.mem_cons_of_mem _ hc, hcn2⟩

theorem foldDeploy_preserve (env : PlannerEnv) (did : Nat) (cfgs : List ComponentConfig)
    (n : String) (hno : ∀ c ∈ cfgs, ¬ c.name = n) :
    ∀ acc : CState × List PlanEvent,
      curLookup ((cfgs.foldl (deployStep env did) acc).1).components n =
        curLookup acc.1.components n := by
  induction cfgs with
  | nil => intro acc; rfl
  | cons c rest ih =>
    intro acc
    rw [List.foldl_cons]
    rw [ih (fun x hx => hno x (List.mem_cons_of_mem _ hx)) _]
    rw [(deployStep_decomp env did acc c).1,
      (deployComponent_components env did c acc.1).1, curLookup_upsertComponent]
    rw [if_neg (by
      show ¬ n = (mkDBComponent did c).name
      intro hn
      exact hno c (List.mem_cons_self _ _) (Eq.symm hn))]

theorem foldDeploy_lookup (env : PlannerEnv) (did : Nat) (cfgs : List ComponentConfig)
    (n : String) (hnd : (cfgs.map (fun c => c.name)).Nodup) :
    ∀ acc : CState × List PlanEvent,
      curLookup ((cfgs.foldl (deployStep env did) acc).1).components n =
        match cfgs.find? (fun c => c.name == n) with
        | some c => some (mkDBComponent did c)
        | none => curLookup acc.1.components n := by
  induction cfgs with
  | nil => intro acc; rfl
  | cons c rest ih =>
    intro acc
    rw [List.foldl_cons]
    rw [List.map_cons, List.nodup_cons] at hnd
    by_cases hc : c.name = n
    · have hbeq : (c.name == n) = true := by simp [hc]
      simp only [List.find?_cons, hbeq]
      have hrest : ∀ x ∈ rest, ¬ x.name = n := by
        intro x hx hxn
        exact hnd.1 (by
          have : x.name = c.name := by rw [hxn, hc]
          exact List.mem_map.mpr ⟨x, hx, this⟩)
      rw [foldDeploy_preserve env did rest n hrest _]
      rw [(deployStep_decomp env did acc c).1,
        (deployComponent_components env did c acc.1).1, curLookup_upsertComponent]
      rw [if_pos (by
        show n = (mkDBComponent did c).name
        rw [← hc]
        rfl)]
    · have hbeq : (c.name == n) = false := by
        rw [beq_eq_false_iff_ne]
        exact hc
      simp only [List.find?_cons, hbeq]
      rw [ih hnd.2 _]
      have hstep : curLookup ((deployStep env did acc c).1).components n =
          curLookup acc.1.components n := by
        rw [(deployStep_decomp env did acc c).1,
          (deployComponent_components env did c acc.1).1, curLookup_upsertComponent]
        rw [if_neg (by
          show ¬ n = (mkDBComponent did c).name
          intro hn
          exact hc (Eq.symm hn))]
      rcases hf : rest.find? (fun x => x.name == n) with _ | x
      · simp only [hf]
        exact hstep
      · simp only [hf]

theorem foldDeploy_events (env : PlannerEnv) (did : Nat) (cfgs : List ComponentConfig) :
    ∀ acc : CState × List PlanEvent,
      ∃ extra, (cfgs.foldl (deployStep env did) acc).2 = acc.2 ++ extra ∧
        ∀ e ∈ extra, ∀ cn, e.component = some cn → ∃ c ∈ cfgs, c.name = cn := by
  induction cfgs with
  | nil =>
    intro acc
    exact ⟨[], by simp, fun e he => by simp at he⟩
  | cons c rest ih =>
    intro acc
    rw [List.foldl_cons]
    obtain ⟨extra2, hex2, hab2⟩ := ih (deployStep env did acc c)
    refine ⟨(deployComponent env did c acc.1).2.2 ++ extra2, ?_, ?_⟩
    · rw [hex2, (deployStep_decomp env did acc c).2, List.append_assoc]
    · intro e he cn hcn
      rcases List.mem_append.mp he with h1 | h2
      · exact ⟨c, List.mem_cons_self _ _,
          (deployComponent_events_about env did c acc.1 e h1 cn hcn).symm ▸ rfl⟩
      · obtain ⟨x, hx, hxn⟩ := hab2 e h2 cn hcn
        exact ⟨x, List.mem_cons_of_mem _ hx, hxn⟩

/-! ## Plan characterization lemmas -/

theorem mem_dedupKeys (l : List String) (a : String) : a ∈ dedupKeys l ↔ a ∈ l := by
  induction l with
  | nil => simp [dedupKeys]
  | cons k rest ih =>
    unfold dedupKeys
    by_cases hk : k ∈ rest
    · rw [if_pos hk]
      rw [ih]
      constructor
      · exact fun h => List.mem_cons_of_mem _ h
      · intro h
        rcases List.mem_cons.mp h with rfl | h2
        · exact hk
        · exact h2
    · rw [if_neg hk]
      constructor
      · intro h
        rcases List.mem_cons.mp h with rfl | h2
        · exact List.mem_cons_self _ _
        · exact List.mem_cons_of_mem _ (ih.mp h2)
      · intro h
        rcases List.mem_cons.mp h with rfl | h2
        · exact List.mem_cons_self _ _
        · exact List.mem_cons_of_mem _ (ih.mpr h2)

theorem dedupKeys_nodup (l : List String) : (dedupKeys l).Nodup := by
  induction l with
  | nil => exact List.nodup_nil
  | cons k rest ih =>
    unfold dedupKeys
    by_cases hk : k ∈ rest
    · rw [if_pos hk]
      exact ih
    · rw [if_neg hk]
      exact List.nodup_cons.mpr ⟨fun h => hk ((mem_dedupKeys rest k).mp h), ih⟩

theorem newLookup_eq_some_name (desired : List ComponentConfig) (n : String)
    (c : ComponentConfig) (h : newLookup desired n = some c) : c.name = n := by
  unfold newLookup at h
  have hmem := List.mem_of_mem_getLast? (by rw [h]; exact rfl)
  have := List.of_mem_filter hmem
  simpa using this

theorem newLookup_isSome_iff (desired : List ComponentConfig) (n : String) :
    (newLookup desired n).isSome = true ↔ ∃ c ∈ desired, c.name = n := by
  unfold newLookup
  rw [List.getLast?_isSome]
  constructor
  · intro h
    rcases hne : desired.filter (fun c => c.name == n) with _ | ⟨x, xs⟩
    · rw [hne] at h
      simp at h
    · have hx : x ∈ desired.filter (fun c => c.name == n) := by
        rw [hne]
        exact List.mem_cons_self _ _
      refine ⟨x, List.mem_of_mem_filter hx, ?_⟩
      have := List.of_mem_filter hx
      simpa using this
  · rintro ⟨c, hc, hn⟩
    intro hnil
    have : c ∈ desired.filter (fun x => x.name == n) :=
      List.mem_filter.mpr ⟨hc, by simp [hn]⟩
    rw [hnil] at this
    simp at this

theorem curLookup_isSome_iff (l : List DBComponent) (n : String) :
    (curLookup l n).isSome = true ↔ ∃ c ∈ l, c.name = n := by
  rw [curLookup_eq_find?_reverse, List.find?_isSome]
  constructor
  · rintro ⟨x, hx, hp⟩
    exact ⟨x, List.mem_reverse.mp hx, by simpa using hp⟩
  · rintro ⟨c, hc, hn⟩
    exact ⟨c, List.mem_reverse.mpr hc, by simp [hn]⟩

theorem find?_unique {α : Type} (p : α → Bool) (l : List α) (a : α) (ha : a ∈ l)
    (hpa : p a = true) (huniq : ∀ x ∈ l, p x = true → x = a) : l.find? p = some a := by
  induction l with
  | nil => simp at ha
  | cons x xs ih =>
    by_cases hpx : p x = true
    · have : x = a := huniq x (List.mem_cons_self _ _) hpx
      rw [List.find?_cons, hpx, this]
    · rw [List.find?_cons]
      rw [show p x = false from by
        cases h : p x
        · rfl
        · exact absurd h hpx]
      have hax : ¬ a = x := fun h => hpx (h ▸ hpa)
      rcases List.mem_cons.mp ha with rfl | h2
      · exact absurd rfl hax
      · exact ih h2 (fun y hy hpy => huniq y (List.mem_cons_of_mem _ hy) hpy)

theorem mem_toRemove_iff (current : List DBComponent) (desired : List ComponentConfig)
    (c : DBComponent) :
    c ∈ (computePlan current desired).toRemove ↔
      curLookup current c.name = some c ∧ newLookup desired c.name = none := by
  unfold computePlan
  simp only [List.mem_filterMap]
  constructor
  · rintro ⟨n, hn, hc⟩
    rcases hnl : newLookup desired n with _ | v
    · rw [hnl] at hc
      have hname : c.name = n := curLookup_eq_some_name current n c hc
      rw [hname]
      exact ⟨hc, hnl⟩
    · rw [hnl] at hc
      exact absurd hc (by simp)
  · rintro ⟨hcur, hnew⟩
    refine ⟨c.name, ?_, ?_⟩
    · rw [mem_dedupKeys]
      have hmem : c ∈ current := by
        have hf : c ∈ current.filter (fun x => x.name == c.name) := by
          unfold curLookup at hcur
          exact List.mem_of_mem_getLast? hcur
        exact List.mem_of_mem_filter hf
      exact List.mem_map.mpr ⟨c, hmem, rfl⟩
    · rw [hnew]
      exact hcur

theorem mem_toUpdate_iff (current : List DBComponent) (desired : List ComponentConfig)
    (c : ComponentConfig) :
    c ∈ (computePlan current desired).toUpdate ↔
      ∃ cu, curLookup current c.name = some cu ∧ newLookup desired c.name = some c ∧
        ¬ cu.hash = c.hash := by
  unfold computePlan
  simp only [List.mem_filterMap]
  constructor
  · rintro ⟨n, hn, hc⟩
    rcases hnl : newLookup desired n with _ | nc
    · rw [hnl] at hc
      simp at hc
    · rcases hcl : curLookup current n with _ | cu
      · rw [hnl, hcl] at hc
        simp at hc
      · have hc2 : (if cu.hash ≠ nc.hash then some nc else none) = some c := by
          rw [hnl, hcl] at hc
          exact hc
        by_cases hh : cu.hash ≠ nc.hash
        · rw [if_pos hh] at hc2
          have hnc : nc = c := Option.some.inj hc2
          have hname : c.name = n := by
            rw [← hnc]
            exact newLookup_eq_some_name desired n nc hnl
          rw [hname]
          exact ⟨cu, hcl, by rw [← hnc]; exact hnl, by rw [← hnc]; exact hh⟩
        · rw [if_neg hh] at hc2
          simp at hc2
  · rintro ⟨cu, hcur, hnew, hne⟩
    refine ⟨c.name, ?_, ?_⟩
    · rw [mem_dedupKeys]
      have : (newLookup desired c.name).isSome = true := by rw [hnew]; rfl
      obtain ⟨x, hx, hxn⟩ := (newLookup_isSome_iff desired c.name).mp this
      exact List.mem_map.mpr ⟨x, hx, hxn⟩
    · show (match newLookup desired c.name, curLookup current c.name with
        | some nc, some cu => if cu.hash ≠ nc.hash then some nc else none
        | _, _ => none) = some c
      rw [hnew, hcur]
      show (if cu.hash ≠ c.hash then some c else none) = some c
      rw [if_pos hne]

theorem mem_toAdd_iff (current : List DBComponent) (desired : List ComponentConfig)
    (c : ComponentConfig) :
    c ∈ (computePlan current desired).toAdd ↔
      curLookup current c.name = none ∧ newLookup desired c.name = some c := by
  unfold computePlan
  simp only [List.mem_filterMap]
  constructor
  · rintro ⟨n, hn, hc⟩
    rcases hcl : curLookup current n with _ | cu
    · rw [hcl] at hc
      have hname : c.name = n := newLookup_eq_some_name desired n c hc
      rw [hname]
      exact ⟨hcl, hc⟩
    · rw [hcl] at hc
      simp at hc
  · rintro ⟨hcur, hnew⟩
    refine ⟨c.name, ?_, ?_⟩
    · rw [mem_dedupKeys]
      have : (newLookup desired c.name).isSome = true := by rw [hnew]; rfl
      obtain ⟨x, hx, hxn⟩ := (newLookup_isSome_iff desired c.name).mp this
      exact List.mem_map.mpr ⟨x, hx, hxn⟩
    · rw [hcur]
      exact hnew

theorem filterMap_names_nodup {α : Type} (keys : List String) (hk : keys.Nodup)
    (f : String → Option α) (name : α → String)
    (hf : ∀ n a, f n = some a → name a = n) :
    ((keys.filterMap f).map name).Nodup := by
  induction keys with
  | nil => simp
  | cons k ks ih =>
    rw [List.nodup_cons] at hk
    rw [List.filterMap_cons]
    rcases hfk : f k with _ | a
    · exact ih hk.2
    · rw [List.map_cons]
      refine List.nodup_cons.mpr ⟨?_, ih hk.2⟩
      intro hmem
      obtain ⟨b, hb, hbn⟩ := List.mem_map.mp hmem
      obtain ⟨n, hn, hfn⟩ := List.mem_filterMap.mp hb
      have h1 : name a = k := hf k a hfk
      have h2 : name b = n := hf n b hfn
      apply hk.1
      rw [← h1, ← hbn, h2]
      exact hn

theorem toRemove_names_nodup (current : List DBComponent) (desired : List ComponentConfig) :
    (((computePlan current desired).toRemove).map (fun c => c.name)).Nodup := by
  unfold computePlan
  apply filterMap_names_nodup _ (dedupKeys_nodup _)
  intro n a hfa
  rcases hnl : newLookup desired n with _ | v
  · rw [hnl] at hfa
    exact curLookup_eq_some_name current n a hfa
  · rw [hnl] at hfa
    simp at hfa

theorem toUpdate_names_nodup (current : List DBComponent) (desired : List ComponentConfig) :
    (((computePlan current desired).toUpdate).map (fun c => c.name)).Nodup := by
  unfold computePlan
  apply filterMap_names_nodup _ (dedupKeys_nodup _)
  intro n a hfa
  rcases hnl : newLookup desired n with _ | nc
  · rw [hnl] at hfa
    simp at hfa
  · rcases hcl : curLookup current n with _ | cu
    · rw [hnl, hcl] at hfa
      simp at hfa
    · have hfa2 : (if cu.hash ≠ nc.hash then some nc else none) = some a := by
        rw [hnl, hcl] at hfa
        exact hfa
      by_cases hh : cu.hash ≠ nc.hash
      · rw [if_pos hh] at hfa2
        have : nc = a := Option.some.inj hfa2
        rw [← this]
        exact newLookup_eq_some_name desired n nc hnl
      · rw [if_neg hh] at hfa2
        simp at hfa2

theorem toAdd_names_nodup (current : List DBComponent) (desired : List ComponentConfig) :
    (((computePlan current desired).toAdd).map (fun c => c.name)).Nodup := by
  unfold computePlan
  apply filterMap_names_nodup _ (dedupKeys_nodup _)
  intro n a hfa
  rcases hcl : curLookup current n with _ | cu
  · rw [hcl] at hfa
    exact newLookup_eq_some_name desired n a hfa
  · rw [hcl] at hfa
    simp at hfa

theorem processDeployment_unfold (env : PlannerEnv) (did : Nat)
    (desired : List ComponentConfig) (s : CState) :
    processDeployment env did desired s =
      (computePlan s.components desired).toAdd.foldl (deployStep env did)
        ((computePlan s.components desired).toUpdate.foldl (deployStep env did)
          ((computePlan s.components desired).toRemove.foldl (removeStep env)
            (s, [PlanEvent.updateStatus "running"]))) := rfl

/-- Final component row stored for each name after ProcessDeployment: a
desired name gets the fresh row when it was added or its hash changed and
keeps the old row otherwise; an undesired name's row survives only when its
removal does not delete it (failed nomad removal or unknown handler). -/
theorem processDeployment_lookup (env : PlannerEnv) (did : Nat)
    (desired : List ComponentConfig) (s : CState) (n : String) :
    curLookup ((processDeployment env did desired s).1).components n =
      match newLookup desired n, curLookup s.components n with
      | some nc, some cu =>
        if ¬ cu.hash = nc.hash then some (mkDBComponent did nc) else some cu
      | some nc, none => some (mkDBComponent did nc)
      | none, some cu => if removalKills env cu = true then none else some cu
      | none, none => none := by
  rw [processDeployment_unfold]
  rw [foldDeploy_lookup env did _ n (toAdd_names_nodup s.components desired) _]
  rcases hnl : newLookup desired n with _ | nc
  · -- undesired name: not added, not updated
    have haddf : ((computePlan s.components desired).toAdd.find?
        (fun c => c.name == n)) = none := by
      rw [List.find?_eq_none]
      intro x hx hp
      rw [beq_iff_eq] at hp
      obtain ⟨_, hnew⟩ := (mem_toAdd_iff s.components desired x).mp hx
      rw [hp, hnl] at hnew
      exact Option.noConfusion hnew
    simp only [haddf]
    rw [foldDeploy_lookup env did _ n (toUpdate_names_nodup s.components desired) _]
    have hupf : ((computePlan s.components desired).toUpdate.find?
        (fun c => c.name == n)) = none := by
      rw [List.find?_eq_none]
      intro x hx hp
      rw [beq_iff_eq] at hp
      obtain ⟨cu, _, hnew, _⟩ := (mem_toUpdate_iff s.components desired x).mp hx
      rw [hp, hnl] at hnew
      exact Option.noConfusion hnew
    simp only [hupf]
    rw [foldRemove_lookup env _ n (toRemove_names_nodup s.components desired) _]
    rcases hcl : curLookup s.components n with _ | cu
    · have hremf : ((computePlan s.components desired).toRemove.find?
          (fun c => c.name == n)) = none := by
        rw [List.find?_eq_none]
        intro x hx hp
        rw [beq_iff_eq] at hp
        obtain ⟨hcur, _⟩ := (mem_toRemove_iff s.components desired x).mp hx
        rw [hp, hcl] at hcur
        exact Option.noConfusion hcur
      simp only [hremf]
    · have hname : cu.name = n := curLookup_eq_some_name s.components n cu hcl
      have hremf : ((computePlan s.components desired).toRemove.find?
          (fun c => c.name == n)) = some cu := by
        apply find?_unique
        · rw [mem_toRemove_iff]
          rw [hname]
          exact ⟨hcl, hnl⟩
        · simp [hname]
        · intro x hx hp
          rw [beq_iff_eq] at hp
          obtain ⟨hcur, _⟩ := (mem_toRemove_iff s.components desired x).mp hx
          rw [hp, hcl] at hcur
          exact (Option.some.inj hcur).symm
      simp only [hremf]
  · -- desired name
    have hncname : nc.name = n := newLookup_eq_some_name desired n nc hnl
    rcases hcl : curLookup s.components n with _ | cu
    · -- new name: added
      have haddf : ((computePlan s.components desired).toAdd.find?
          (fun c => c.name == n)) = some nc := by
        apply find?_unique
        · rw [mem_toAdd_iff, hncname]
          exact ⟨hcl, hnl⟩
        · simp [hncname]
        · intro x hx hp
          rw [beq_iff_eq] at hp
          obtain ⟨_, hnew⟩ := (mem_toAdd_iff s.components desired x).mp hx
          rw [hp, hnl] at hnew
          exact (Option.some.inj hnew).symm
      simp only [haddf]
    · -- present in both: updated iff hash changed
      have haddf : ((computePlan s.components desired).toAdd.find?
          (fun c => c.name == n)) = none := by
        rw [List.find?_eq_none]
        intro x hx hp
        rw [beq_iff_eq] at hp
        obtain ⟨hcur, _⟩ := (mem_toAdd_iff s.components desired x).mp hx
        rw [hp, hcl] at hcur
        exact Option.noConfusion hcur
      simp only [haddf]
      rw [foldDeploy_lookup env did _ n (toUpdate_names_nodup s.components desired) _]
      by_cases hh : ¬ cu.hash = nc.hash
      · have hupf : ((computePlan s.components desired).toUpdate.find?
            (fun c => c.name == n)) = some nc := by
          apply find?_unique
          · rw [mem_toUpdate_iff, hncname]
            exact ⟨cu, hcl, hnl, hh⟩
          · simp [hncname]
          · intro x hx hp
            rw [beq_iff_eq] at hp
            obtain ⟨_, _, hnew, _⟩ := (mem_toUpdate_iff s.components desired x).mp hx
            rw [hp, hnl] at hnew
            exact (Option.some.inj hnew).symm
        simp only [hupf]
        rw [if_pos hh]
      · have hupf : ((computePlan s.components desired).toUpdate.find?
            (fun c => c.name == n)) = none := by
          rw [List.find?_eq_none]
          intro x hx hp
          rw [beq_iff_eq] at hp
          obtain ⟨cu2, hcur2, hnew2, hne2⟩ := (mem_toUpdate_iff s.components desired x).mp hx
          rw [hp] at hcur2 hnew2
          rw [hcl] at hcur2
          rw [hnl] at hnew2
          have h1 : cu2 = cu := (Option.some.inj hcur2).symm
          have h2 : x = nc := (Option.some.inj hnew2).symm
          apply hne2
          rw [h1, h2]
          by_contra hcc
          exact hh fun hcc2 => hcc hcc2
        simp only [hupf]
        rw [foldRemove_lookup env _ n (toRemove_names_nodup s.components desired) _]
        have hremf : ((computePlan s.components desired).toRemove.find?
            (fun c => c.name == n)) = none := by
          rw [List.find?_eq_none]
          intro x hx hp
          rw [beq_iff_eq] at hp
          obtain ⟨_, hnew⟩ := (mem_toRemove_iff s.components desired x).mp hx
          rw [hp, hnl] at hnew
          exact Option.noConfusion hnew
        simp only [hremf]
        rw [if_neg hh]
        exact hcl

/-! ## Claim C4 — plan computation, execution order, independence -/

/-- C4: ProcessDeployment computes toRemove as the stored rows whose name is
absent from the desired configuration, toUpdate as the desired entries
present with a different stored hash, and toAdd as the desired entries
absent from the store; the event trace is the status update followed by the
removal-class events, then the update-class events, then the addition-class
events; and per-component actions are independent: every planned update and
addition leaves its fresh row in the store and every deleting removal
removes its row, whatever the outcomes of the other components and of the
external collaborators. -/
theorem processDeployment_plan_order_independence (env : PlannerEnv) (did : Nat)
    (desired : List ComponentConfig) (s : CState) :
    (∀ c : DBComponent, c ∈ (computePlan s.components desired).toRemove ↔
        curLookup s.components c.name = some c ∧ newLookup desired c.name = none) ∧
    (∀ c : ComponentConfig, c ∈ (computePlan s.components desired).toUpdate ↔
        ∃ cu, curLookup s.components c.name = some cu ∧
          newLookup desired c.name = some c ∧ ¬ cu.hash = c.hash) ∧
    (∀ c : ComponentConfig, c ∈ (computePlan s.components desired).toAdd ↔
        curLookup s.components c.name = none ∧ newLookup desired c.name = some c) ∧
    (∃ er eu ea, (processDeployment env did desired s).2
        = PlanEvent.updateStatus "running" :: (er ++ eu ++ ea) ∧
      (∀ e ∈ er, ∀ cn, e.component = some cn →
        ∃ c ∈ (computePlan s.components desired).toRemove, c.name = cn) ∧
      (∀ e ∈ eu, ∀ cn, e.component = some cn →
        ∃ c ∈ (computePlan s.components desired).toUpdate, c.name = cn) ∧
      (∀ e ∈ ea, ∀ cn, e.component = some cn →
        ∃ c ∈ (computePlan s.components desired).toAdd, c.name = cn)) ∧
    (∀ c ∈ (computePlan s.components desired).toUpdate,
      curLookup ((processDeployment env did desired s).1).components c.name
        = some (mkDBComponent did c)) ∧
    (∀ c ∈ (computePlan s.components desired).toAdd,
      curLookup ((processDeployment env did desired s).1).components c.name
        = some (mkDBComponent did c)) ∧
    (∀ c ∈ (computePlan s.components desired).toRemove, removalKills env c = true →
      curLookup ((processDeployment env did desired s).1).components c.name = none) := by
  refine ⟨fun c => mem_toRemove_iff s.components desired c,
    fun c => mem_toUpdate_iff s.components desired c,
    fun c => mem_toAdd_iff s.components desired c, ?_, ?_, ?_, ?_⟩
  · obtain ⟨er, h1, hab1⟩ := foldRemove_events env
      (computePlan s.components desired).toRemove (s, [PlanEvent.updateStatus "running"])
    obtain ⟨eu, h2, hab2⟩ := foldDeploy_events env did
      (computePlan s.components desired).toUpdate
      ((computePlan s.components desired).toRemove.foldl (removeStep env)
        (s, [PlanEvent.updateStatus "running"]))
    obtain ⟨ea, h3, hab3⟩ := foldDeploy_events env did
      (computePlan s.components desired).toAdd
      ((computePlan s.components desired).toUpdate.foldl (deployStep env did)
        ((computePlan s.components desired).toRemove.foldl (removeStep env)
          (s, [PlanEvent.updateStatus "running"])))
    refine ⟨er, eu, ea, ?_, hab1, hab2, hab3⟩
    rw [processDeployment_unfold, h3, h2, h1]
    simp [List.append_assoc]
  · intro c hc
    obtain ⟨cu, hcl, hnl, hne⟩ := (mem_toUpdate_iff s.components desired c).mp hc
    rw [processDeployment_lookup env did desired s c.name]
    simp only [hnl, hcl]
    rw [if_pos hne]
  · intro c hc
    obtain ⟨hcl, hnl⟩ := (mem_toAdd_iff s.components desired c).mp hc
    rw [processDeployment_lookup env did desired s c.name]
    simp only [hnl, hcl]
  · intro c hc hk
    obtain ⟨hcl, hnl⟩ := (mem_toRemove_iff s.components desired c).mp hc
    rw [processDeployment_lookup env did desired s c.name]
    simp only [hnl, hcl]
    rw [if_pos hk]

/-- Closed instance of C4: a one-component configuration against an empty
store plans exactly one addition and, after the run, the fresh row with the
desired hash is stored. -/
theorem processDeployment_plan_witness :
    curLookup ((processDeployment
        { streams := [], commandCoreOk := fun _ _ => true,
          nomadDeployOk := fun _ => true, nomadRemoveOk := fun _ => true } 1
        [{ name := "c", type := "program", handler := "agent", hash := "h1", tags := [],
           content := "", contentURL := "http://u", contentURLEncoding := "", nomadJob := "",
           healthCheck := none, env := none, args := [], managed := true }]
        { components := [], compDeployments := [], nodes := [] }).1).components "c"
      = some (mkDBComponent 1
        { name := "c", type := "program", handler := "agent", hash := "h1", tags := [],
          content := "", contentURL := "http://u", contentURLEncoding := "", nomadJob := "",
          healthCheck := none, env := none, args := [], managed := true }) := by
  have h := (processDeployment_plan_order_independence
    { streams := [], commandCoreOk := fun _ _ => true,
      nomadDeployOk := fun _ => true, nomadRemoveOk := fun _ => true } 1
    [{ name := "c", type := "program", handler := "agent", hash := "h1", tags := [],
       content := "", contentURL := "http://u", contentURLEncoding := "", nomadJob := "",
       healthCheck := none, env := none, args := [], managed := true }]
    { components := [], compDeployments := [], nodes := [] }).2.2.2.2.2.1
  exact h
    { name := "c", type := "program", handler := "agent", hash := "h1", tags := [],
      content := "", contentURL := "http://u", contentURLEncoding := "", nomadJob := "",
      healthCheck := none, env := none, args := [], managed := true }
    (by decide)

/-! ## Claim C3 — idempotency of ProcessDeployment -/

/-- C3: Running ProcessDeployment twice in a row with the same desired
configuration yields, after the second run, exactly the state left by the
first run (the same Component and ComponentDeployment tables); after the
first run every desired component's stored hash equals the desired hash, so
the second run's plan puts no component in toAdd or toUpdate, and the
second run emits no ComponentDeployment broadcast. -/
theorem processDeployment_idempotent (env : PlannerEnv) (did did2 : Nat)
    (desired : List ComponentConfig) (s : CState) :
    (processDeployment env did2 desired ((processDeployment env did desired s).1)).1
      = (processDeployment env did desired s).1 ∧
    (computePlan ((processDeployment env did desired s).1).components desired).toUpdate
      = [] ∧
    (computePlan ((processDeployment env did desired s).1).components desired).toAdd
      = [] ∧
    (∀ n nc, newLookup desired n = some nc →
      ∃ c, curLookup ((processDeployment env did desired s).1).components n = some c ∧
        c.hash = nc.hash) ∧
    (∀ e ∈ (processDeployment env did2 desired
        ((processDeployment env did desired s).1)).2,
      e.isDeployBroadcast = false) := by
  have hupd : (computePlan ((processDeployment env did desired s).1).components
      desired).toUpdate = [] := by
    rw [List.eq_nil_iff_forall_not_mem]
    intro c hc
    obtain ⟨cu, hcl1, hnl, hne⟩ :=
      (mem_toUpdate_iff ((processDeployment env did desired s).1).components desired c).mp hc
    rw [processDeployment_lookup env did desired s c.name] at hcl1
    rcases hcl0 : curLookup s.components c.name with _ | cu0
    · simp only [hnl, hcl0] at hcl1
      have : cu = mkDBComponent did c := (Option.some.inj hcl1).symm
      exact hne (by rw [this]; rfl)
    · simp only [hnl, hcl0] at hcl1
      by_cases hh0 : ¬ cu0.hash = c.hash
      · rw [if_pos hh0] at hcl1
        have : cu = mkDBComponent did c := (Option.some.inj hcl1).symm
        exact hne (by rw [this]; rfl)
      · rw [if_neg hh0] at hcl1
        have hcc : cu = cu0 := (Option.some.inj hcl1).symm
        have heq : cu0.hash = c.hash := not_not.mp hh0
        exact hne (by rw [hcc]; exact heq)
  have hadd : (computePlan ((processDeployment env did desired s).1).components
      desired).toAdd = [] := by
    rw [List.eq_nil_iff_forall_not_mem]
    intro c hc
    obtain ⟨hcl1, hnl⟩ :=
      (mem_toAdd_iff ((processDeployment env did desired s).1).components desired c).mp hc
    rw [processDeployment_lookup env did desired s c.name] at hcl1
    rcases hcl0 : curLookup s.components c.name with _ | cu0
    · simp only [hnl, hcl0] at hcl1
      exact Option.noConfusion hcl1
    · simp only [hnl, hcl0] at hcl1
      by_cases hh0 : ¬ cu0.hash = c.hash
      · rw [if_pos hh0] at hcl1
        exact Option.noConfusion hcl1
      · rw [if_neg hh0] at hcl1
        exact Option.noConfusion hcl1
  have hkills : ∀ c ∈ (computePlan ((processDeployment env did desired s).1).components
      desired).toRemove, removalKills env c = false := by
    intro c hc
    obtain ⟨hcl1, hnl⟩ :=
      (mem_toRemove_iff ((processDeployment env did desired s).1).components desired c).mp hc
    rw [processDeployment_lookup env did desired s c.name] at hcl1
    rcases hcl0 : curLookup s.components c.name with _ | cu0
    · simp only [hnl, hcl0] at hcl1
      exact Option.noConfusion hcl1
    · simp only [hnl, hcl0] at hcl1
      by_cases hk0 : removalKills env cu0 = true
      · rw [if_pos hk0] at hcl1
        exact Option.noConfusion hcl1
      · rw [if_neg hk0] at hcl1
        have : cu0 = c := Option.some.inj hcl1
        rw [← this]
        rw [Bool.not_eq_true] at hk0
        exact hk0
  have hrun2 : processDeployment env did2 desired ((processDeployment env did desired s).1)
      = (computePlan ((processDeployment env did desired s).1).components desired).toRemove.foldl
          (removeStep env)
          ((processDeployment env did desired s).1, [PlanEvent.updateStatus "running"]) := by
    rw [processDeployment_unfold, hupd, hadd]
    rw [List.foldl_nil, List.foldl_nil]
  have hnoop := foldRemove_noop env
    (computePlan ((processDeployment env did desired s).1).components desired).toRemove
    hkills ((processDeployment env did desired s).1, [PlanEvent.updateStatus "running"])
  refine ⟨?_, hupd, hadd, ?_, ?_⟩
  · rw [hrun2]
    exact hnoop.1
  · intro n nc hnl
    rw [processDeployment_lookup env did desired s n]
    rcases hcl0 : curLookup s.components n with _ | cu0
    · simp only [hnl, hcl0]
      exact ⟨mkDBComponent did nc, rfl, rfl⟩
    · simp only [hnl, hcl0]
      by_cases hh0 : ¬ cu0.hash = nc.hash
      · rw [if_pos hh0]
        exact ⟨mkDBComponent did nc, rfl, rfl⟩
      · rw [if_neg hh0]
        exact ⟨cu0, rfl, not_not.mp hh0⟩
  · intro e he
    rw [hrun2] at he
    rcases hnoop.2 e he with hin | hbf
    · simp at hin
      rw [hin]
      rfl
    · exact hbf

/-- Closed instance of C3: after deploying a one-component configuration to
an empty store, the stored hash matches the desired one. -/
theorem processDeployment_idempotent_witness :
    ∃ c, curLookup ((processDeployment
        { streams := [], commandCoreOk := fun _ _ => true,
          nomadDeployOk := fun _ => true, nomadRemoveOk := fun _ => true } 1
        [{ name := "c", type := "program", handler := "agent", hash := "h1", tags := [],
           content := "", contentURL := "http://u", contentURLEncoding := "", nomadJob := "",
           healthCheck := none, env := none, args := [], managed := true }]
        { components := [], compDeployments := [], nodes := [] }).1).components "c"
      = some c ∧ c.hash = "h1" :=
  (processDeployment_idempotent
    { streams := [], commandCoreOk := fun _ _ => true,
      nomadDeployOk := fun _ => true, nomadRemoveOk := fun _ => true } 1 2
    [{ name := "c", type := "program", handler := "agent", hash := "h1", tags := [],
       content := "", contentURL := "http://u", contentURLEncoding := "", nomadJob := "",
       healthCheck := none, env := none, args := [], managed := true }]
    { components := [], compDeployments := [], nodes := [] }).2.2.2.1 "c"
    { name := "c", type := "program", handler := "agent", hash := "h1", tags := [],
      content := "", contentURL := "http://u", contentURLEncoding := "", nomadJob := "",
      healthCheck := none, env := none, args := [], managed := true }
    (by decide)

end Cosmos
